import Mathlib

/-!
Verification of the torchtnt runner training loop (`torchtnt/runner/train.py`,
`torchtnt/runner/state.py`) against its natural-language specification.

The Python loop driver is shallowly embedded as total Lean functions over an
explicit `World` state.  Python exceptions become an `Option Exc` result
threaded next to the (already mutated) world; `while` loops take a fuel
parameter and report exhaustion with the distinguished `Exc.fuelExhausted`,
which models "still running", never a Python exception.  Side effects that the
claims observe (hook invocations, steps, interleaved evaluation passes, the
empty-epoch warning) are recorded in a ghost event trace.  Hook bodies supplied
by the user (the unit's hooks, each callback's hooks, `train_step`) are
abstracted by a `Script` of effect functions: an invocation may call
`state.stop()` and/or raise, which is the full interface user code has to the
driver's control flow.

Helper modules of the repository (`progress.py`, `utils.py`, `evaluate.py`)
are not part of the provided sources; their definitions below are modelled
from the specification and marked `Modelled from the spec:`.
-/

set_option autoImplicit false

namespace TNT

/-- Python exceptions distinguished by the driver.  `fuelExhausted` is an
artifact of the fuel-based embedding of `while` loops (the loop is still
running), not a Python exception. -/
inductive Exc where
  | stopIteration
  | runtimeError (msg : String)
  | valueError (msg : String)
  | userError (tag : Nat)
  | fuelExhausted
deriving DecidableEq, Repr

/-- Hook names dispatched to the unit and to callbacks. -/
inductive HookName where
  | onTrainStart
  | onTrainEpochStart
  | onTrainStepStart
  | onTrainStepEnd
  | onTrainEpochEnd
  | onTrainEnd
  | onException
deriving DecidableEq, Repr

/-- Ghost trace events recording the observable actions of the driver. -/
inductive Ev where
  | unitHook (h : HookName)
  | cbHook (i : Nat) (h : HookName)
  | trainStep
  | evalPass
  | warnEmptyEpoch
deriving DecidableEq, Repr

/-- Effect of one user-code invocation (a unit hook, a callback hook or
`train_step`): it may call `state.stop()` and may raise.  The stop effect is
applied before the raise, matching code that calls `state.stop()` and then
raises. -/
structure HookEff where
  callStop : Bool := false
  raise : Option Exc := none
deriving DecidableEq, Repr

/-- Modelled from the spec: `Progress` (`torchtnt/runner/progress.py` is not in
the provided sources) — counters {num_epochs_completed, num_steps_completed,
num_steps_completed_in_epoch}, all non-negative ints. -/
structure Progress where
  num_epochs_completed : Nat := 0
  num_steps_completed : Nat := 0
  num_steps_completed_in_epoch : Nat := 0
deriving DecidableEq, Repr

/-- Modelled from the spec: `increment_step()` — num_steps_completed += 1,
num_steps_completed_in_epoch += 1. -/
def Progress.increment_step (p : Progress) : Progress :=
  { p with
    num_steps_completed := p.num_steps_completed + 1
    num_steps_completed_in_epoch := p.num_steps_completed_in_epoch + 1 }

/-- Modelled from the spec: `increment_epoch()` — num_epochs_completed += 1,
num_steps_completed_in_epoch = 0. -/
def Progress.increment_epoch (p : Progress) : Progress :=
  { p with
    num_epochs_completed := p.num_epochs_completed + 1
    num_steps_completed_in_epoch := 0 }

/-- `EntryPoint` enum from `state.py`. -/
inductive EntryPoint where
  | FIT
  | TRAIN
  | EVALUATE
  | PREDICT
deriving DecidableEq, Repr

/-- `ActivePhase` enum from `state.py`. -/
inductive ActivePhase where
  | TRAIN
  | EVALUATE
  | PREDICT
deriving DecidableEq, Repr

/-- `PhaseState` from `state.py`.  The dataloader is embedded as the list of
batches it yields (batch payloads are irrelevant to the driver and elided);
loop limits are optional Python ints, hence `Option Int`. -/
structure PhaseState where
  dataloader : List Unit := []
  progress : Progress := {}
  max_epochs : Option Int := none
  max_steps : Option Int := none
  max_steps_per_epoch : Option Int := none
  evaluate_every_n_steps : Option Int := none
  evaluate_every_n_epochs : Option Int := none
  step_output : Option Nat := none
deriving DecidableEq, Repr

/-- `_check_loop_condition` from `state.py`: raises `ValueError` iff the value
is present and negative.  Returns the raised exception, if any. -/
def check_loop_condition (name : String) (val : Option Int) : Option Exc :=
  match val with
  | some v =>
      if v < 0 then
        some (.valueError ("Invalid value provided for " ++ name))
      else none
  | none => none

/-- `PhaseState.__init__` from `state.py`: checks the five loop-limit values in
order and raises on the first negative one, otherwise constructs the state
with a fresh `Progress` and empty step output. -/
def PhaseState.init (dataloader : List Unit)
    (max_epochs max_steps max_steps_per_epoch
      evaluate_every_n_steps evaluate_every_n_epochs : Option Int) :
    Except Exc PhaseState :=
  match check_loop_condition "max_epochs" max_epochs with
  | some e => .error e
  | none =>
  match check_loop_condition "max_steps" max_steps with
  | some e => .error e
  | none =>
  match check_loop_condition "max_steps_per_epoch" max_steps_per_epoch with
  | some e => .error e
  | none =>
  match check_loop_condition "evaluate_every_n_steps" evaluate_every_n_steps with
  | some e => .error e
  | none =>
  match check_loop_condition "evaluate_every_n_epochs" evaluate_every_n_epochs with
  | some e => .error e
  | none =>
  .ok { dataloader := dataloader
        progress := {}
        max_epochs := max_epochs
        max_steps := max_steps
        max_steps_per_epoch := max_steps_per_epoch
        evaluate_every_n_steps := evaluate_every_n_steps
        evaluate_every_n_epochs := evaluate_every_n_epochs
        step_output := none }

/-- `State` from `state.py`.  `State.__init__` sets `_should_stop = False` and
`_active_phase = ActivePhase.TRAIN`, which are the defaults here. -/
structure State where
  entry_point : EntryPoint := .TRAIN
  train_state : Option PhaseState := none
  eval_state : Option PhaseState := none
  predict_state : Option PhaseState := none
  should_stop : Bool := false
  active_phase : ActivePhase := .TRAIN
deriving DecidableEq, Repr

/-- `State.stop()` from `state.py`: signal the loop to end after the current
step completes (sets the one-way `_should_stop` latch; its log line is not
modelled). -/
def State.stop (s : State) : State := { s with should_stop := true }

/-- `init_train_state` from `train.py`: builds a `State` with
`entry_point=TRAIN` and a train `PhaseState` constructed (and validated) from
the given limits. -/
def init_train_state (dataloader : List Unit)
    (max_epochs max_steps max_steps_per_epoch : Option Int) :
    Except Exc State :=
  match PhaseState.init dataloader max_epochs max_steps max_steps_per_epoch
      none none with
  | .error e => .error e
  | .ok ts => .ok { entry_point := .TRAIN, train_state := some ts }

/-- The full mutable world threaded through the driver: the `State` object,
the training-mode flags of the unit's tracked modules, and the ghost event
trace. -/
structure World where
  state : State := {}
  modules : List Bool := []
  trace : List Ev := []
deriving DecidableEq, Repr

/-- Modelled from the spec: `_is_done(progress, max_epochs, max_steps)` from
`torchtnt/runner/utils.py` (not in the provided sources) — true iff
(max_steps is set and num_steps_completed >= max_steps) or (max_epochs is set
and num_epochs_completed >= max_epochs). -/
def is_done (p : Progress) (max_epochs max_steps : Option Int) : Bool :=
  (match max_steps with
   | some m => decide ((p.num_steps_completed : Int) ≥ m)
   | none => false) ||
  (match max_epochs with
   | some m => decide ((p.num_epochs_completed : Int) ≥ m)
   | none => false)

/-- Modelled from the spec: `_is_epoch_done(progress, max_steps_per_epoch,
max_steps)` from `torchtnt/runner/utils.py` (not in the provided sources) —
true iff (max_steps_per_epoch is set and num_steps_completed_in_epoch >=
max_steps_per_epoch) or (max_steps is set and num_steps_completed >=
max_steps). -/
def is_epoch_done (p : Progress) (max_steps_per_epoch max_steps : Option Int) :
    Bool :=
  (match max_steps_per_epoch with
   | some m => decide ((p.num_steps_completed_in_epoch : Int) ≥ m)
   | none => false) ||
  (match max_steps with
   | some m => decide ((p.num_steps_completed : Int) ≥ m)
   | none => false)

/-- Python truthiness of an `Optional[int]`: `None` and `0` are falsy.  Used
by `_train_epoch_impl` when it resolves the evaluate-interleaving cadences
(`if state.eval_state.evaluate_every_n_steps: ...`), which therefore treats a
stored `0` exactly like `None`. -/
def truthyOpt : Option Int → Option Int
  | none => none
  | some v => if v = 0 then none else some v

/-- Modelled from the spec: `_set_module_training_mode(modules, mode)` from
`torchtnt/runner/utils.py` (not in the provided sources) — records each
tracked module's current mode, sets every module to `mode`, and returns the
recorded prior modes. -/
def set_module_training_mode (modules : List Bool) (mode : Bool) :
    List Bool × List Bool :=
  (modules.map (fun _ => mode), modules)

/-- Modelled from the spec: `_reset_module_training_mode(modules, prior)` from
`torchtnt/runner/utils.py` (not in the provided sources) — restores each
module's exact previous mode. -/
def reset_module_training_mode (_modules prior : List Bool) : List Bool :=
  prior

/-- Append one ghost event to the trace. -/
def World.emit (w : World) (e : Ev) : World := { w with trace := w.trace ++ [e] }

/-- Apply the optional `state.stop()` call of a hook effect. -/
def World.applyStop (w : World) (b : Bool) : World :=
  if b then { w with state := w.state.stop } else w

/-- Mutate the train `PhaseState` in place (no-op when absent, which the
driver's checks make unreachable). -/
def World.modifyTrain (w : World) (f : PhaseState → PhaseState) : World :=
  match w.state.train_state with
  | none => w
  | some ts => { w with state := { w.state with train_state := some (f ts) } }

/-- The progress of the train phase (`train_state.progress`; defaulted when
`train_state` is absent, which the driver's checks make unreachable). -/
def trainProgress (w : World) : Progress := (w.state.train_state.getD {}).progress

/-- Abstraction of all user code the driver dispatches to: the number of
registered callbacks, whether `train_step` declares it wants the raw iterator
(`_step_requires_iterator` is not in the provided sources; per the spec it
inspects the step function's parameter signature once, so it is a fixed
capability flag here), and the effect of every unit hook, callback hook and
`train_step` invocation as a function of the current program state. -/
structure Script where
  nCallbacks : Nat := 0
  step_requires_iterator : Bool := false
  unitEff : HookName → World → HookEff := fun _ _ => {}
  cbEff : Nat → HookName → World → HookEff := fun _ _ _ => {}
  stepEff : World → HookEff := fun _ => {}

/-- Run one user-code invocation: the event is already recorded in `w`; the
effect may call `state.stop()` and then raise. -/
def applyEff (eff : HookEff) (w : World) : World × Option Exc :=
  (w.applyStop eff.callStop, eff.raise)

/-- Invoke a unit hook: record the event, apply the scripted effect. -/
def runUnitHook (s : Script) (h : HookName) (w : World) : World × Option Exc :=
  applyEff (s.unitEff h w) (w.emit (.unitHook h))

/-- Dispatch loop of `_run_callback_fn`: invoke callback `i`, then the
remaining `r` callbacks, short-circuiting when a callback raises. -/
def runCbAux (s : Script) (h : HookName) : Nat → Nat → World → World × Option Exc
  | _, 0, w => (w, none)
  | i, r + 1, w =>
    match applyEff (s.cbEff i h w) (w.emit (.cbHook i h)) with
    | (w1, some e) => (w1, some e)
    | (w1, none) => runCbAux s h (i + 1) r w1

/-- Modelled from the spec: `_run_callback_fn(callbacks, hook_name, ...)` from
`torchtnt/runner/utils.py` (not in the provided sources) — invokes the hook on
every callback in list order; a raising callback propagates immediately,
short-circuiting the rest. -/
def run_callback_fn (s : Script) (h : HookName) (w : World) : World × Option Exc :=
  runCbAux s h 0 s.nCallbacks w

/-- Modelled from the spec: `_evaluate_impl` from `torchtnt/runner/evaluate.py`
(not in the provided sources) — one full evaluation pass over the eval
dataloader, abstracted to its occurrence, recorded as an `evalPass` event. -/
def evaluate_impl (w : World) : World × Option Exc := (w.emit .evalPass, none)

/-- Resolution of `evaluate_every_n_steps` at the top of `_train_epoch_impl`
(`train.py` lines 191-197): present only when `eval_state` is set and the
stored value is truthy (so a stored `0` resolves to `none`). -/
def resolveCadenceSteps (st : State) : Option Int :=
  match st.eval_state with
  | none => none
  | some es => truthyOpt es.evaluate_every_n_steps

/-- Resolution of `evaluate_every_n_epochs` at the top of `_train_epoch_impl`
(`train.py` lines 191-197), with the same truthiness. -/
def resolveCadenceEpochs (st : State) : Option Int :=
  match st.eval_state with
  | none => none
  | some es => truthyOpt es.evaluate_every_n_epochs

/-- The per-step interleaving test of `_train_epoch_impl` (`train.py` lines
240-245): the resolved cadence is present (hence truthy) and divides
`num_steps_completed_in_epoch`. -/
def stepEvalCond (k : Option Int) (stepsInEpoch : Nat) : Bool :=
  match k with
  | some kk => decide ((stepsInEpoch : Int) % kk = 0)
  | none => false

/-- The empty-epoch test of `_train_epoch_impl` (`train.py` lines 256-259):
`abs(now - prev) > 0` on Python ints. -/
def any_steps_completed (now prev : Nat) : Bool :=
  decide (0 < ((now : Int) - (prev : Int)).natAbs)

/-- The per-epoch interleaving test of `_train_epoch_impl` (`train.py` lines
270-273): the resolved cadence is present (hence truthy) and divides
`num_epochs_completed`. -/
def epochEvalCond (ke : Option Int) (epochs : Nat) : Bool :=
  match ke with
  | some kk => decide ((epochs : Int) % kk = 0)
  | none => false

/-- Sequencing of the embedded Python statements: an exception short-circuits
the continuation, carrying the already-mutated world. -/
def andThen (r : World × Option Exc) (f : World → World × Option Exc) :
    World × Option Exc :=
  match r with
  | (w, some e) => (w, some e)
  | (w, none) => f w

/-- Invoke `train_unit.train_step`: record the event, apply the scripted
effect; on success the (opaque) return value is stored in
`train_state._step_output`. -/
def runTrainStep (s : Script) (w : World) : World × Option Exc :=
  match applyEff (s.stepEff w) (w.emit .trainStep) with
  | (w1, some e) => (w1, some e)
  | (w1, none) =>
      (w1.modifyTrain (fun ts => { ts with step_output := some 0 }), none)

/-- The `try` body of one step-loop iteration of `_train_epoch_impl`
(`train.py` lines 225-251) after the loop condition passed: pull the next
batch when the step does not take the iterator (raising `StopIteration` on
exhaustion), fire `on_train_step_start` callbacks, run `train_step`, increment
step progress, fire `on_train_step_end` callbacks, clear the step output, and
run an interleaved evaluation pass when the resolved cadence `k` divides
`num_steps_completed_in_epoch`.  Returns the remaining batches and the
result. -/
def stepBodyCore (s : Script) (k : Option Int) (w0 : World) : World × Option Exc :=
  andThen (run_callback_fn s .onTrainStepStart w0) (fun w1 =>
  andThen (runTrainStep s w1) (fun w2 =>
  let w3 := w2.modifyTrain (fun ts => { ts with progress := ts.progress.increment_step })
  andThen (run_callback_fn s .onTrainStepEnd w3) (fun w4 =>
  let w5 := w4.modifyTrain (fun ts => { ts with step_output := none })
  if stepEvalCond k (trainProgress w5).num_steps_completed_in_epoch then
    evaluate_impl w5
  else (w5, none))))

def stepBody (s : Script) (k : Option Int) (rest : List Unit) (w : World) :
    List Unit × World × Option Exc :=
  if s.step_requires_iterator then
    (rest, stepBodyCore s k w)
  else
    match rest with
    | [] => (rest, (w, some .stopIteration))
    | _ :: rest' => (rest', stepBodyCore s k w)

/-- The step loop of `_train_epoch_impl` (`train.py` lines 219-254):
`while not (state.should_stop or _is_epoch_done(...))`, with the body's
`StopIteration` caught as a silent `break` and any other exception
propagating.  `fuel` bounds the number of iterations (exhaustion reported as
`Exc.fuelExhausted`). -/
def stepLoop (s : Script) (mspe ms k : Option Int) :
    Nat → List Unit → World → World × Option Exc
  | fuel, rest, w =>
    if w.state.should_stop || is_epoch_done (trainProgress w) mspe ms then
      (w, none)
    else
      match fuel with
      | 0 => (w, some .fuelExhausted)
      | fuel' + 1 =>
        match stepBody s k rest w with
        | (rest', (w1, oe)) =>
          match oe with
          | some e => if e = Exc.stopIteration then (w1, none) else (w1, some e)
          | none => stepLoop s mspe ms k fuel' rest' w1

/-- The shared prologue of `_train_impl` (lines 103-108) and
`_train_epoch_impl` (lines 181-186): set the active phase to TRAIN and set all
tracked modules to train mode.  The recorded prior modes are
`(set_module_training_mode w0.modules true).2`. -/
def trainPrologue (w0 : World) : World :=
  { w0 with
    state := { w0.state with active_phase := ActivePhase.TRAIN },
    modules := (set_module_training_mode w0.modules true).1 }

/-- The tail of `_train_epoch_impl` after the step loop (`train.py` lines
256-286): possibly warn about an empty epoch (`prev` is the
steps-in-epoch count captured before the loop), increment the epoch, fire the
`on_train_epoch_end` hooks, run an every-n-epochs evaluation pass when due,
and restore the prior module modes. -/
def epochTail (s : Script) (ke : Option Int) (prev : Nat) (prior : List Bool)
    (w3 : World) : World × Option Exc :=
  andThen (runUnitHook s .onTrainEpochEnd
      ((if any_steps_completed (trainProgress w3).num_steps_completed_in_epoch prev then w3
        else w3.emit .warnEmptyEpoch).modifyTrain
        (fun ts => { ts with progress := ts.progress.increment_epoch }))) (fun w6 =>
  andThen (run_callback_fn s .onTrainEpochEnd w6) (fun w7 =>
  andThen
    (if epochEvalCond ke (trainProgress w7).num_epochs_completed then
      evaluate_impl w7
    else (w7, none))
    (fun w8 =>
  ({ w8 with modules := reset_module_training_mode w8.modules prior }, none))))

/-- `_train_epoch_impl` from `train.py` (lines 175-286): after the prologue,
assert `train_state`, resolve the interleaving cadences from `eval_state`
with Python truthiness, fire `on_train_epoch_start` hooks iff no step of this
epoch has completed yet, run the step loop on a fresh iterator over the
dataloader, then the epilogue `epochTail`.  As in the source there is no
try/finally: an exception anywhere skips the module-mode restore. -/
def train_epoch_impl (s : Script) (fuel : Nat) (w0 : World) : World × Option Exc :=
  match (trainPrologue w0).state.train_state with
  | none => (trainPrologue w0, some (.runtimeError "assert train_state is not None"))
  | some ts0 =>
    andThen
      (if ts0.progress.num_steps_completed_in_epoch = 0 then
        andThen (runUnitHook s .onTrainEpochStart (trainPrologue w0)) (fun w1 =>
          run_callback_fn s .onTrainEpochStart w1)
      else (trainPrologue w0, none))
      (fun w2 =>
        andThen
          (stepLoop s ts0.max_steps_per_epoch ts0.max_steps
            (resolveCadenceSteps (trainPrologue w0).state) fuel
            ((w2.state.train_state.getD {}).dataloader) w2)
          (epochTail s (resolveCadenceEpochs (trainPrologue w0).state)
            ((trainProgress w2).num_steps_completed_in_epoch)
            ((set_module_training_mode w0.modules true).2)))

/-- The epoch loop of `_train_impl` (`train.py` lines 114-118):
`while not (state.should_stop or _is_done(...))`, running one epoch per
iteration. -/
def epochLoop (s : Script) (me ms : Option Int) :
    Nat → World → World × Option Exc
  | fuel, w =>
    if w.state.should_stop || is_done (trainProgress w) me ms then
      (w, none)
    else
      match fuel with
      | 0 => (w, some .fuelExhausted)
      | fuel' + 1 =>
        match train_epoch_impl s fuel' w with
        | (w1, some e) => (w1, some e)
        | (w1, none) => epochLoop s me ms fuel' w1

/-- `_train_impl` from `train.py` (lines 91-127): raise unless `train_state`
is initialized, set the active phase, set tracked modules to train mode
(recording prior modes), fire `on_train_start` hooks, run the epoch loop,
fire `on_train_end` hooks, and restore the prior module modes.  As in the
source there is no try/finally: an exception anywhere skips the restore. -/
def train_impl (s : Script) (fuel : Nat) (w : World) : World × Option Exc :=
  match w.state.train_state with
  | none => (w, some (.runtimeError "Expected train_state to be initialized"))
  | some ts =>
    andThen (runUnitHook s .onTrainStart (trainPrologue w)) (fun w1 =>
    andThen (run_callback_fn s .onTrainStart w1) (fun w2 =>
    andThen (epochLoop s ts.max_epochs ts.max_steps fuel w2) (fun w3 =>
    andThen (runUnitHook s .onTrainEnd w3) (fun w4 =>
    andThen (run_callback_fn s .onTrainEnd w4) (fun w5 =>
    ({ w5 with modules := reset_module_training_mode w5.modules (set_module_training_mode w.modules true).2 }, none))))))

/-- The shared `except Exception` handler of `train` and `train_epoch`
(`train.py` lines 83-88 and 167-172): invoke `on_exception` on the unit, then
on every callback in list order, then re-raise the original exception.
Exceptions raised inside these handlers are not caught and propagate in place
of the original. -/
def runOnException (s : Script) (orig : Exc) (w : World) : World × Option Exc :=
  andThen (runUnitHook s .onException w) (fun w1 =>
  andThen (run_callback_fn s .onException w1) (fun w2 => (w2, some orig)))

/-- `state._entry_point = EntryPoint.TRAIN`, the first statement inside the
`try` of both entry points. -/
def setEntryTrain (w : World) : World :=
  { w with state := { w.state with entry_point := .TRAIN } }

/-- The shared `except Exception` wrapper of both entry points: a normal
result passes through; a Python exception first runs the `on_exception`
handlers and is then re-raised.  `fuelExhausted` means the run is still in
progress, so the handler path does not apply to it. -/
def excWrapper (s : Script) (r : World × Option Exc) : World × Option Exc :=
  match r with
  | (w1, none) => (w1, none)
  | (w1, some Exc.fuelExhausted) => (w1, some .fuelExhausted)
  | (w1, some e) => runOnException s e w1

/-- `train` entry point from `train.py` (lines 62-88): inside the `try`, set
the entry point and run `_train_impl`; on an exception run the `on_exception`
handlers and re-raise. -/
def train (s : Script) (fuel : Nat) (w : World) : World × Option Exc :=
  excWrapper s (train_impl s fuel (setEntryTrain w))

/-- The `try` block of `train_epoch` (`train.py` lines 148-164): raise unless
`train_state` is initialized, raise unless `train_state.max_epochs == 1`
(Python `not train_state.max_epochs == 1`, so `None` also raises), set the
entry point and run `_train_epoch_impl`. -/
def train_epoch_body (s : Script) (fuel : Nat) (w : World) : World × Option Exc :=
  match w.state.train_state with
  | none => (w, some (Exc.runtimeError "Expected train_state to be initialized"))
  | some ts =>
    if ts.max_epochs ≠ some 1 then
      (w, some (Exc.runtimeError "Expected state.train_state.max_epochs to be 1"))
    else
      train_epoch_impl s fuel (setEntryTrain w)

/-- `train_epoch` entry point from `train.py` (lines 131-172): the `try`
block, with exceptions (config errors included) routed through the
`on_exception` handlers and re-raised. -/
def train_epoch (s : Script) (fuel : Nat) (w : World) : World × Option Exc :=
  excWrapper s (train_epoch_body s fuel w)

/-- A unit and `c` callbacks whose hooks and `train_step` all return normally
without touching the loop: the benign scripts of the specification's example
scenarios. -/
def quietScript (c : Nat) : Script := { nCallbacks := c }

/-- The events of one `_run_callback_fn` dispatch over `c` callbacks. -/
def cbEvs (c : Nat) (h : HookName) : List Ev :=
  (List.range c).map (fun j => Ev.cbHook j h)

/-- The events of one completed step-loop iteration under a quiet script with
`c` callbacks, when the step brings `num_steps_completed_in_epoch` to `m`:
step-start callbacks, the step, step-end callbacks, and an interleaved
evaluation pass when the resolved cadence `k` divides `m`. -/
def stepBlock (c : Nat) (k : Option Int) (m : Nat) : List Ev :=
  cbEvs c .onTrainStepStart ++ [Ev.trainStep] ++ cbEvs c .onTrainStepEnd ++
    (if stepEvalCond k m then [Ev.evalPass] else [])

/-! ## Frame lemmas for the primitive operations -/

@[simp] lemma emit_trace (w : World) (e : Ev) : (w.emit e).trace = w.trace ++ [e] := rfl

@[simp] lemma emit_state (w : World) (e : Ev) : (w.emit e).state = w.state := rfl

@[simp] lemma emit_modules (w : World) (e : Ev) : (w.emit e).modules = w.modules := rfl

@[simp] lemma applyStop_trace (w : World) (b : Bool) : (w.applyStop b).trace = w.trace := by
  cases b <;> rfl

@[simp] lemma applyStop_modules (w : World) (b : Bool) : (w.applyStop b).modules = w.modules := by
  cases b <;> rfl

@[simp] lemma applyStop_train_state (w : World) (b : Bool) :
    (w.applyStop b).state.train_state = w.state.train_state := by
  cases b <;> rfl

@[simp] lemma applyStop_eval_state (w : World) (b : Bool) :
    (w.applyStop b).state.eval_state = w.state.eval_state := by
  cases b <;> rfl

lemma applyStop_stop_mono (w : World) (b : Bool) (h : w.state.should_stop = true) :
    (w.applyStop b).state.should_stop = true := by
  cases b <;> simp [World.applyStop, State.stop, h]

@[simp] lemma modifyTrain_trace (w : World) (f : PhaseState → PhaseState) :
    (w.modifyTrain f).trace = w.trace := by
  unfold World.modifyTrain; cases w.state.train_state <;> rfl

@[simp] lemma modifyTrain_modules (w : World) (f : PhaseState → PhaseState) :
    (w.modifyTrain f).modules = w.modules := by
  unfold World.modifyTrain; cases w.state.train_state <;> rfl

@[simp] lemma modifyTrain_should_stop (w : World) (f : PhaseState → PhaseState) :
    (w.modifyTrain f).state.should_stop = w.state.should_stop := by
  unfold World.modifyTrain; cases w.state.train_state <;> rfl

@[simp] lemma modifyTrain_eval_state (w : World) (f : PhaseState → PhaseState) :
    (w.modifyTrain f).state.eval_state = w.state.eval_state := by
  unfold World.modifyTrain; cases w.state.train_state <;> rfl

lemma modifyTrain_train_state (w : World) (f : PhaseState → PhaseState) :
    (w.modifyTrain f).state.train_state = w.state.train_state.map f := by
  unfold World.modifyTrain; cases h : w.state.train_state <;> simp [h]

lemma modifyTrain_of_some (w : World) (f : PhaseState → PhaseState) (ts : PhaseState)
    (h : w.state.train_state = some ts) :
    w.modifyTrain f = { w with state := { w.state with train_state := some (f ts) } } := by
  unfold World.modifyTrain; rw [h]

@[simp] lemma andThen_ok (w : World) (f : World → World × Option Exc) :
    andThen (w, none) f = f w := rfl

@[simp] lemma andThen_err (w : World) (e : Exc) (f : World → World × Option Exc) :
    andThen (w, some e) f = (w, some e) := rfl

/-- Destructing a sequenced result: either the first statement raised and the
continuation never ran, or it completed and the continuation produced the
result. -/
lemma andThen_cases {r : World × Option Exc} {f : World → World × Option Exc}
    {w' : World} {oe : Option Exc} (h : andThen r f = (w', oe)) :
    (∃ e, r = (w', some e) ∧ oe = some e) ∨ (∃ wm, r = (wm, none) ∧ f wm = (w', oe)) := by
  rcases r with ⟨w0, oe0⟩
  cases oe0 with
  | none => exact Or.inr ⟨w0, rfl, h⟩
  | some e =>
      rw [andThen_err] at h
      cases h
      exact Or.inl ⟨e, rfl, rfl⟩

lemma runUnitHook_eq (s : Script) (h : HookName) (w : World) :
    runUnitHook s h w =
      ((w.emit (.unitHook h)).applyStop (s.unitEff h w).callStop, (s.unitEff h w).raise) := rfl

lemma runUnitHook_trace (s : Script) (h : HookName) (w : World) :
    (runUnitHook s h w).1.trace = w.trace ++ [Ev.unitHook h] := by
  rw [runUnitHook_eq]; simp

lemma runUnitHook_modules (s : Script) (h : HookName) (w : World) :
    (runUnitHook s h w).1.modules = w.modules := by
  rw [runUnitHook_eq]; simp

lemma runUnitHook_train_state (s : Script) (h : HookName) (w : World) :
    (runUnitHook s h w).1.state.train_state = w.state.train_state := by
  rw [runUnitHook_eq]; simp

lemma runUnitHook_eval_state (s : Script) (h : HookName) (w : World) :
    (runUnitHook s h w).1.state.eval_state = w.state.eval_state := by
  rw [runUnitHook_eq]; simp

lemma runUnitHook_stop_mono (s : Script) (h : HookName) (w : World)
    (hs : w.state.should_stop = true) :
    (runUnitHook s h w).1.state.should_stop = true := by
  rw [runUnitHook_eq]
  exact applyStop_stop_mono _ _ hs

lemma runUnitHook_quiet (c : Nat) (h : HookName) (w : World) :
    runUnitHook (quietScript c) h w = (w.emit (.unitHook h), none) := rfl

@[simp] lemma isSome_map {α β : Type} (f : α → β) (o : Option α) :
    (o.map f).isSome = o.isSome := by cases o <;> rfl

/-! ## A frame relation for the inner loop operations

`FrameRel P w w2` says `w2` is reachable from `w` by inner-loop work: it only
appended events satisfying `P` to the trace, left the module modes, the
presence of the train state, the completed-epoch counter and the eval state
unchanged, and never cleared the stop latch. -/

def FrameRel (P : Ev → Prop) (w w2 : World) : Prop :=
  (∃ t, w2.trace = w.trace ++ t ∧ ∀ e ∈ t, P e) ∧
  w2.modules = w.modules ∧
  w2.state.train_state.isSome = w.state.train_state.isSome ∧
  (trainProgress w2).num_epochs_completed = (trainProgress w).num_epochs_completed ∧
  w2.state.eval_state = w.state.eval_state ∧
  (w.state.should_stop = true → w2.state.should_stop = true)

lemma frameRel_rfl {P : Ev → Prop} (w : World) : FrameRel P w w :=
  ⟨⟨[], by simp, by simp⟩, by simp, by simp, by simp, by simp, id⟩

lemma frameRel_trans {P : Ev → Prop} {w1 w2 w3 : World}
    (h12 : FrameRel P w1 w2) (h23 : FrameRel P w2 w3) : FrameRel P w1 w3 := by
  obtain ⟨⟨t1, ht1, hm1⟩, hmod1, hts1, hep1, hev1, hst1⟩ := h12
  obtain ⟨⟨t2, ht2, hm2⟩, hmod2, hts2, hep2, hev2, hst2⟩ := h23
  refine ⟨⟨t1 ++ t2, ?_, ?_⟩, hmod2.trans hmod1, hts2.trans hts1, hep2.trans hep1,
    hev2.trans hev1, fun h => hst2 (hst1 h)⟩
  · rw [ht2, ht1, List.append_assoc]
  · intro e he
    rcases List.mem_append.mp he with h | h
    · exact hm1 e h
    · exact hm2 e h

lemma frameRel_mono {P Q : Ev → Prop} {w w2 : World} (hPQ : ∀ e, P e → Q e)
    (h : FrameRel P w w2) : FrameRel Q w w2 := by
  obtain ⟨⟨t, ht, hm⟩, rest⟩ := h
  exact ⟨⟨t, ht, fun e he => hPQ e (hm e he)⟩, rest⟩

/-- Frame property of a whole computation result. -/
def FrameOK (P : Ev → Prop) (w : World) (res : World × Option Exc) : Prop :=
  FrameRel P w res.1

lemma frameOK_andThen {P : Ev → Prop} {w : World} {r : World × Option Exc}
    {f : World → World × Option Exc} (h1 : FrameOK P w r)
    (h2 : ∀ wm, FrameOK P wm (f wm)) : FrameOK P w (andThen r f) := by
  rcases r with ⟨wm, oe⟩
  cases oe with
  | none => exact frameRel_trans h1 (h2 wm)
  | some e => exact h1

lemma frameRel_emit {P : Ev → Prop} (w : World) (e : Ev) (he : P e) :
    FrameRel P w (w.emit e) :=
  ⟨⟨[e], by simp, by simp [he]⟩, by simp, by simp, by simp [trainProgress], by simp, fun h => by simp [h]⟩

lemma frameRel_applyStop {P : Ev → Prop} (w : World) (b : Bool) :
    FrameRel P w (w.applyStop b) := by
  refine ⟨⟨[], by simp, by simp⟩, by simp, by simp, ?_, by simp, applyStop_stop_mono w b⟩
  simp [trainProgress]

lemma frameRel_modifyTrain {P : Ev → Prop} (w : World) (f : PhaseState → PhaseState)
    (hf : ∀ ts, (f ts).progress.num_epochs_completed = ts.progress.num_epochs_completed) :
    FrameRel P w (w.modifyTrain f) := by
  refine ⟨⟨[], by simp, by simp⟩, by simp, ?_, ?_, by simp, fun h => by simp [h]⟩
  · rw [modifyTrain_train_state]; simp
  · unfold trainProgress
    rw [modifyTrain_train_state]
    cases w.state.train_state with
    | none => rfl
    | some ts => simpa using hf ts

lemma frameOK_runUnitHook {P : Ev → Prop} (s : Script) (h : HookName) (w : World)
    (hP : P (Ev.unitHook h)) : FrameOK P w (runUnitHook s h w) := by
  rw [runUnitHook_eq]
  exact frameRel_trans (frameRel_emit w _ hP) (frameRel_applyStop _ _)

lemma frameOK_runCbAux {P : Ev → Prop} (s : Script) (h : HookName)
    (hP : ∀ j, P (Ev.cbHook j h)) (r : Nat) :
    ∀ (i : Nat) (w : World), FrameOK P w (runCbAux s h i r w) := by
  induction r with
  | zero => intro i w; exact frameRel_rfl w
  | succ r ih =>
      intro i w
      show FrameOK P w (match applyEff (s.cbEff i h w) (w.emit (.cbHook i h)) with
        | (w1, some e) => (w1, some e)
        | (w1, none) => runCbAux s h (i + 1) r w1)
      have hbase : FrameRel P w (((w.emit (.cbHook i h)).applyStop (s.cbEff i h w).callStop)) :=
        frameRel_trans (frameRel_emit w _ (hP i)) (frameRel_applyStop _ _)
      unfold applyEff
      cases (s.cbEff i h w).raise with
      | some e => exact hbase
      | none => exact frameRel_trans hbase (ih (i + 1) _)

lemma frameOK_run_callback_fn {P : Ev → Prop} (s : Script) (h : HookName) (w : World)
    (hP : ∀ j, P (Ev.cbHook j h)) : FrameOK P w (run_callback_fn s h w) :=
  frameOK_runCbAux s h hP s.nCallbacks 0 w

lemma frameOK_runTrainStep {P : Ev → Prop} (s : Script) (w : World)
    (hP : P Ev.trainStep) : FrameOK P w (runTrainStep s w) := by
  unfold runTrainStep applyEff
  have hbase : FrameRel P w (((w.emit .trainStep)).applyStop (s.stepEff w).callStop) :=
    frameRel_trans (frameRel_emit w _ hP) (frameRel_applyStop _ _)
  cases (s.stepEff w).raise with
  | some e => exact hbase
  | none =>
      exact frameRel_trans hbase (frameRel_modifyTrain _ _ (fun ts => by simp))

lemma frameOK_evaluate_impl {P : Ev → Prop} (w : World) (hP : P Ev.evalPass) :
    FrameOK P w (evaluate_impl w) :=
  frameRel_emit w _ hP

/-- The events the step loop can emit: step-start/step-end callback events,
the step itself, and — only when a step cadence is resolved — interleaved
evaluation passes. -/
def StepEv (k : Option Int) (e : Ev) : Prop :=
  e = Ev.trainStep ∨ (∃ j, e = Ev.cbHook j .onTrainStepStart) ∨
    (∃ j, e = Ev.cbHook j .onTrainStepEnd) ∨ (e = Ev.evalPass ∧ k ≠ none)

lemma stepEvalCond_ne_none {k : Option Int} {m : Nat} (h : stepEvalCond k m = true) :
    k ≠ none := by
  cases k with
  | none => simp [stepEvalCond] at h
  | some kk => simp

lemma frameOK_evalStep (k : Option Int) (w5 : World) :
    FrameOK (StepEv k) w5
      (if stepEvalCond k (trainProgress w5).num_steps_completed_in_epoch then
        evaluate_impl w5
      else (w5, none)) := by
  split
  · next hcond =>
      exact frameOK_evaluate_impl _ (Or.inr (Or.inr (Or.inr ⟨rfl, stepEvalCond_ne_none hcond⟩)))
  · exact frameRel_rfl _

lemma frameOK_stepBodyCore (s : Script) (k : Option Int) (w : World) :
    FrameOK (StepEv k) w (stepBodyCore s k w) := by
  unfold stepBodyCore
  apply frameOK_andThen
    (frameOK_run_callback_fn s _ w (fun j => Or.inr (Or.inl ⟨j, rfl⟩)))
  intro w1
  apply frameOK_andThen (frameOK_runTrainStep s w1 (Or.inl rfl))
  intro w2
  refine frameRel_trans
    (frameRel_modifyTrain w2 (fun ts => { ts with progress := ts.progress.increment_step })
      (fun ts => by simp [Progress.increment_step])) ?_
  apply frameOK_andThen
    (frameOK_run_callback_fn s _ _ (fun j => Or.inr (Or.inr (Or.inl ⟨j, rfl⟩))))
  intro w4
  refine frameRel_trans
    (frameRel_modifyTrain w4 (fun ts => { ts with step_output := none }) (fun ts => rfl)) ?_
  exact frameOK_evalStep k (w4.modifyTrain (fun ts => { ts with step_output := none }))

lemma frameOK_stepBody (s : Script) (k : Option Int) (rest : List Unit) (w : World) :
    FrameOK (StepEv k) w (stepBody s k rest w).2 := by
  unfold stepBody
  split
  · exact frameOK_stepBodyCore s k w
  · cases rest with
    | nil => exact frameRel_rfl w
    | cons b rest' => exact frameOK_stepBodyCore s k w

lemma frameOK_stepLoop (s : Script) (mspe ms k : Option Int) :
    ∀ (fuel : Nat) (rest : List Unit) (w : World),
      FrameOK (StepEv k) w (stepLoop s mspe ms k fuel rest w) := by
  intro fuel
  induction fuel with
  | zero =>
      intro rest w
      show FrameOK (StepEv k) w
        (if w.state.should_stop || is_epoch_done (trainProgress w) mspe ms then (w, none)
         else (w, some .fuelExhausted))
      split <;> exact frameRel_rfl w
  | succ fuel' ih =>
      intro rest w
      show FrameOK (StepEv k) w
        (if w.state.should_stop || is_epoch_done (trainProgress w) mspe ms then (w, none)
         else
          match stepBody s k rest w with
          | (rest', (w1, oe)) =>
            match oe with
            | some e => if e = Exc.stopIteration then (w1, none) else (w1, some e)
            | none => stepLoop s mspe ms k fuel' rest' w1)
      split
      · exact frameRel_rfl w
      · rcases hsb : stepBody s k rest w with ⟨rest', w1, oe⟩
        have hrel : FrameRel (StepEv k) w w1 := by
          have := frameOK_stepBody s k rest w
          rw [hsb] at this
          exact this
        cases oe with
        | some e =>
            show FrameOK (StepEv k) w (if e = Exc.stopIteration then (w1, none) else (w1, some e))
            split <;> exact hrel
        | none => exact frameRel_trans hrel (ih rest' w1)

/-! ## Exact computation lemmas for quiet scripts -/

lemma range_cbHook_shift (i r : Nat) (h : HookName) :
    Ev.cbHook i h :: (List.range r).map (fun j => Ev.cbHook (i + 1 + j) h) =
      (List.range (r + 1)).map (fun j => Ev.cbHook (i + j) h) := by
  rw [List.range_succ_eq_map, List.map_cons, List.map_map]
  refine congrArg₂ _ (by simp) ?_
  simp only [List.map_eq_map_iff]
  intro j hj
  simp only [Function.comp]
  congr 1
  omega

lemma runCbAux_quiet (c : Nat) (h : HookName) :
    ∀ (r i : Nat) (w : World),
      runCbAux (quietScript c) h i r w =
        ({ w with trace := w.trace ++ (List.range r).map (fun j => Ev.cbHook (i + j) h) },
          none) := by
  intro r
  induction r with
  | zero => intro i w; simp [runCbAux]
  | succ r ih =>
      intro i w
      have hone : runCbAux (quietScript c) h i (r + 1) w =
          runCbAux (quietScript c) h (i + 1) r (w.emit (.cbHook i h)) := rfl
      rw [hone, ih]
      simp only [World.emit, List.append_assoc, List.singleton_append]
      rw [range_cbHook_shift]

lemma run_callback_fn_quiet (c : Nat) (h : HookName) (w : World) :
    run_callback_fn (quietScript c) h w =
      ({ w with trace := w.trace ++ cbEvs c h }, none) := by
  show runCbAux (quietScript c) h 0 c w = _
  rw [runCbAux_quiet]
  simp [cbEvs]

lemma runTrainStep_quiet (c : Nat) (w : World) :
    runTrainStep (quietScript c) w =
      ((w.emit .trainStep).modifyTrain (fun ts => { ts with step_output := some 0 }), none) := rfl

lemma stepBodyCore_quiet (c : Nat) (k : Option Int) (w : World) (ts : PhaseState)
    (hts : w.state.train_state = some ts) :
    stepBodyCore (quietScript c) k w =
      ({ w with
          state :=
            { w.state with
              train_state :=
                some { ts with progress := ts.progress.increment_step, step_output := none } },
          trace := w.trace ++ stepBlock c k (ts.progress.num_steps_completed_in_epoch + 1) },
        none) := by
  rcases w with ⟨⟨ep, tso, eso, pso, stp, ap⟩, mods, tr⟩
  have h2 : tso = some ts := hts
  subst h2
  unfold stepBodyCore
  rw [run_callback_fn_quiet, andThen_ok, runTrainStep_quiet, andThen_ok]
  simp only [World.emit, World.modifyTrain]
  rw [run_callback_fn_quiet, andThen_ok]
  simp only [World.modifyTrain, trainProgress, Option.getD, Progress.increment_step]
  split
  · next hcond =>
      simp [evaluate_impl, World.emit, stepBlock, hcond, List.append_assoc,
        List.cons_append, Progress.increment_step]
  · next hcond =>
      simp [stepBlock, World.emit, hcond, List.append_assoc, List.cons_append,
        Progress.increment_step]

lemma setTrain_self (w : World) (ts : PhaseState) (hts : w.state.train_state = some ts) :
    ({ w with state := { w.state with train_state := some ts } }) = w := by
  rcases w with ⟨⟨ep, tso, eso, pso, stp, ap⟩, mods, tr⟩
  have h2 : tso = some ts := hts
  subst h2
  rfl

lemma join_stepBlock_shift (c : Nat) (k : Option Int) (base n : Nat) :
    stepBlock c k (base + 1) ++
        ((List.range n).map (fun i => stepBlock c k (base + 1 + i + 1))).flatten =
      ((List.range (n + 1)).map (fun i => stepBlock c k (base + i + 1))).flatten := by
  rw [List.range_succ_eq_map, List.map_cons, List.flatten_cons, List.map_map]
  refine congrArg₂ _ (by simp) (congrArg _ ?_)
  simp only [List.map_eq_map_iff]
  intro j hj
  simp only [Function.comp]
  congr 2
  omega

lemma stepLoop_quiet (c : Nat) (k : Option Int) :
    ∀ (rest : List Unit) (fuel : Nat) (w : World) (ts : PhaseState),
      w.state.train_state = some ts → w.state.should_stop = false →
      ts.step_output = none → rest.length < fuel →
      stepLoop (quietScript c) none none k fuel rest w =
        ({ w with
            state :=
              { w.state with
                train_state :=
                  some { ts with progress :=
                    { ts.progress with
                      num_steps_completed := ts.progress.num_steps_completed + rest.length,
                      num_steps_completed_in_epoch :=
                        ts.progress.num_steps_completed_in_epoch + rest.length } } },
            trace := w.trace ++ ((List.range rest.length).map
              (fun i => stepBlock c k
                (ts.progress.num_steps_completed_in_epoch + i + 1))).flatten },
          none) := by
  intro rest
  induction rest with
  | nil =>
      intro fuel w ts hts hstop hout hfuel
      obtain ⟨fuel', rfl⟩ : ∃ f, fuel = f + 1 := ⟨fuel - 1, by omega⟩
      rcases w with ⟨⟨ep, tso, eso, pso, stp, ap⟩, mods, tr⟩
      have h2 : tso = some ts := hts
      subst h2
      have h3 : stp = false := hstop
      subst h3
      show ((⟨⟨ep, some ts, eso, pso, false, ap⟩, mods, tr⟩ : World), (none : Option Exc)) = _
      simp only [List.length_nil, List.range_zero, List.map_nil, List.flatten_nil, List.append_nil]
      rfl
  | cons b rest' ih =>
      intro fuel w ts hts hstop hout hfuel
      obtain ⟨fuel', rfl⟩ : ∃ f, fuel = f + 1 := ⟨fuel - 1, by omega⟩
      have hone : stepLoop (quietScript c) none none k (fuel' + 1) (b :: rest') w =
          stepLoop (quietScript c) none none k fuel' rest'
            ({ w with
                state :=
                  { w.state with
                    train_state :=
                      some { ts with progress := ts.progress.increment_step, step_output := none } },
                trace := w.trace ++
                  stepBlock c k (ts.progress.num_steps_completed_in_epoch + 1) }) := by
        show (if w.state.should_stop || is_epoch_done (trainProgress w) none none then (w, none)
          else
            match stepBody (quietScript c) k (b :: rest') w with
            | (rest2, (w2, oe)) =>
              match oe with
              | some e => if e = Exc.stopIteration then (w2, none) else (w2, some e)
              | none => stepLoop (quietScript c) none none k fuel' rest2 w2) = _
        rw [hstop]
        have hsb : stepBody (quietScript c) k (b :: rest') w =
            (rest',
              ({ w with
                  state :=
                    { w.state with
                      train_state :=
                        some { ts with progress := ts.progress.increment_step, step_output := none } },
                  trace := w.trace ++
                    stepBlock c k (ts.progress.num_steps_completed_in_epoch + 1) }, none)) := by
          show (rest', stepBodyCore (quietScript c) k w) = _
          rw [stepBodyCore_quiet c k w ts hts]
        rw [hsb]
        rfl
      rw [hone]
      rw [ih fuel'
        ({ w with
            state :=
              { w.state with
                train_state :=
                  some { ts with progress := ts.progress.increment_step, step_output := none } },
            trace := w.trace ++ stepBlock c k (ts.progress.num_steps_completed_in_epoch + 1) })
        ({ ts with progress := ts.progress.increment_step, step_output := none })
        rfl hstop rfl (by simp at hfuel; omega)]
      rcases w with ⟨⟨ep, tso, eso, pso, stp, ap⟩, mods, tr⟩
      have h2 : tso = some ts := hts
      subst h2
      simp only [World.mk.injEq, State.mk.injEq, PhaseState.mk.injEq, Progress.mk.injEq,
        Option.some.injEq, Progress.increment_step, List.length_cons, List.append_assoc,
        true_and, and_true]
      rw [join_stepBlock_shift c k ts.progress.num_steps_completed_in_epoch rest'.length]
      rw [show ts.progress.num_steps_completed + 1 + rest'.length =
        ts.progress.num_steps_completed + (rest'.length + 1) from by omega]
      rw [show ts.progress.num_steps_completed_in_epoch + 1 + rest'.length =
        ts.progress.num_steps_completed_in_epoch + (rest'.length + 1) from by omega]
      rw [hout]

lemma any_steps_completed_eq (now prev : Nat) :
    any_steps_completed now prev = decide (¬ now = prev) := by
  simp only [any_steps_completed, decide_eq_decide]
  omega

lemma train_epoch_impl_quiet (c fuel : Nat) (w : World) (ts : PhaseState)
    (hts : w.state.train_state = some ts) (hstop : w.state.should_stop = false)
    (hmspe : ts.max_steps_per_epoch = none) (hms : ts.max_steps = none)
    (hsie : ts.progress.num_steps_completed_in_epoch = 0) (hout : ts.step_output = none)
    (hfuel : ts.dataloader.length < fuel) :
    train_epoch_impl (quietScript c) fuel w =
      ({ w with
          state :=
            { w.state with
              active_phase := .TRAIN,
              train_state :=
                some { ts with progress :=
                  { num_epochs_completed := ts.progress.num_epochs_completed + 1,
                    num_steps_completed :=
                      ts.progress.num_steps_completed + ts.dataloader.length,
                    num_steps_completed_in_epoch := 0 } } },
          trace := w.trace ++ [Ev.unitHook .onTrainEpochStart] ++ cbEvs c .onTrainEpochStart ++
            ((List.range ts.dataloader.length).map
              (fun i => stepBlock c (resolveCadenceSteps w.state) (i + 1))).flatten ++
            (if ts.dataloader.length = 0 then [Ev.warnEmptyEpoch] else []) ++
            [Ev.unitHook .onTrainEpochEnd] ++ cbEvs c .onTrainEpochEnd ++
            (if epochEvalCond (resolveCadenceEpochs w.state)
                (ts.progress.num_epochs_completed + 1)
              then [Ev.evalPass] else []) },
        none) := by
  rcases ts with ⟨dl, ⟨pe, pst, psie⟩, me, ms, mspe, ees, eee, so⟩
  have e1 : psie = 0 := hsie
  subst e1
  have e2 : ms = none := hms
  subst e2
  have e3 : mspe = none := hmspe
  subst e3
  have e4 : so = none := hout
  subst e4
  rcases w with ⟨⟨ep, tso, eso, pso, stp, ap⟩, mods, tr⟩
  have e5 : tso = some ⟨dl, ⟨pe, pst, 0⟩, me, none, none, ees, eee, none⟩ := hts
  subst e5
  have e6 : stp = false := hstop
  subst e6
  by_cases hdl : dl.length = 0
  all_goals
  unfold train_epoch_impl epochTail
  simp only [trainPrologue, set_module_training_mode, runUnitHook_quiet,
    run_callback_fn_quiet, andThen_ok, World.emit, if_true, Option.getD_some]
  rw [stepLoop_quiet c
    (resolveCadenceSteps
      { entry_point := ep,
        train_state := some ⟨dl, ⟨pe, pst, 0⟩, me, none, none, ees, eee, none⟩,
        eval_state := eso, predict_state := pso, should_stop := false,
        active_phase := ActivePhase.TRAIN })
    dl fuel
    ({ state :=
         { entry_point := ep,
           train_state := some ⟨dl, ⟨pe, pst, 0⟩, me, none, none, ees, eee, none⟩,
           eval_state := eso, predict_state := pso, should_stop := false,
           active_phase := ActivePhase.TRAIN },
       modules := List.map (fun x => true) mods,
       trace := tr ++ [Ev.unitHook HookName.onTrainEpochStart] ++
         cbEvs c HookName.onTrainEpochStart })
    ⟨dl, ⟨pe, pst, 0⟩, me, none, none, ees, eee, none⟩ rfl rfl rfl hfuel]
  simp only [andThen_ok, runUnitHook_quiet, run_callback_fn_quiet, World.emit,
    World.modifyTrain, trainProgress, Option.getD_some, any_steps_completed_eq,
    Progress.increment_epoch, set_module_training_mode, reset_module_training_mode]
  simp [hdl, resolveCadenceSteps, resolveCadenceEpochs]
  split
  · next hcond =>
      simp [evaluate_impl, World.emit, hcond, List.append_assoc, List.cons_append]
  · next hcond =>
      simp [hcond, List.append_assoc, List.cons_append]

/-! ## A coarser frame relation for the whole epoch routine -/

/-- The events one `_train_epoch_impl` call can emit: epoch-start hooks only
when no step of the epoch had completed at entry, step-loop events, the
empty-epoch warning, epoch-end hooks, and an epoch-level evaluation pass only
when that cadence is resolved. -/
def EpochEv (k ke : Option Int) (steps0 : Nat) (e : Ev) : Prop :=
  (e = Ev.unitHook .onTrainEpochStart ∧ steps0 = 0) ∨
  ((∃ j, e = Ev.cbHook j .onTrainEpochStart) ∧ steps0 = 0) ∨
  StepEv k e ∨ e = Ev.warnEmptyEpoch ∨ e = Ev.unitHook .onTrainEpochEnd ∨
  (∃ j, e = Ev.cbHook j .onTrainEpochEnd) ∨ (e = Ev.evalPass ∧ ke ≠ none)

lemma epochEvalCond_ne_none {ke : Option Int} {m : Nat} (h : epochEvalCond ke m = true) :
    ke ≠ none := by
  cases ke with
  | none => simp [epochEvalCond] at h
  | some kk => simp

/-- Frame relation for the epoch routine: trace extension with events in `P`,
train-state presence preserved, stop latch never cleared. -/
def ERel (P : Ev → Prop) (w w2 : World) : Prop :=
  (∃ t, w2.trace = w.trace ++ t ∧ ∀ e ∈ t, P e) ∧
  w2.state.train_state.isSome = w.state.train_state.isSome ∧
  (w.state.should_stop = true → w2.state.should_stop = true)

lemma eRel_rfl {P : Ev → Prop} (w : World) : ERel P w w :=
  ⟨⟨[], by simp, by simp⟩, by simp, id⟩

lemma eRel_trans {P : Ev → Prop} {w1 w2 w3 : World}
    (h12 : ERel P w1 w2) (h23 : ERel P w2 w3) : ERel P w1 w3 := by
  obtain ⟨⟨t1, ht1, hm1⟩, hts1, hst1⟩ := h12
  obtain ⟨⟨t2, ht2, hm2⟩, hts2, hst2⟩ := h23
  refine ⟨⟨t1 ++ t2, ?_, ?_⟩, hts2.trans hts1, fun h => hst2 (hst1 h)⟩
  · rw [ht2, ht1, List.append_assoc]
  · intro e he
    rcases List.mem_append.mp he with h | h
    · exact hm1 e h
    · exact hm2 e h

lemma eRel_of_frameRel {P : Ev → Prop} {w w2 : World} (h : FrameRel P w w2) :
    ERel P w w2 := by
  obtain ⟨ht, _, hts, _, _, hst⟩ := h
  exact ⟨ht, hts, hst⟩

lemma eRel_mono {P Q : Ev → Prop} {w w2 : World} (hPQ : ∀ e, P e → Q e)
    (h : ERel P w w2) : ERel Q w w2 := by
  obtain ⟨⟨t, ht, hm⟩, rest⟩ := h
  exact ⟨⟨t, ht, fun e he => hPQ e (hm e he)⟩, rest⟩

/-- Epoch-level frame property of a whole result. -/
def EOK (P : Ev → Prop) (w : World) (res : World × Option Exc) : Prop :=
  ERel P w res.1

lemma eOK_andThen {P : Ev → Prop} {w : World} {r : World × Option Exc}
    {f : World → World × Option Exc} (h1 : EOK P w r)
    (h2 : ∀ wm, EOK P wm (f wm)) : EOK P w (andThen r f) := by
  rcases r with ⟨wm, oe⟩
  cases oe with
  | none => exact eRel_trans h1 (h2 wm)
  | some e => exact h1

lemma eRel_setModules {P : Ev → Prop} (w : World) (m : List Bool) :
    ERel P w ({ w with modules := m }) :=
  ⟨⟨[], by simp, by simp⟩, by simp, fun h => by simp [h]⟩

lemma eRel_modifyTrain {P : Ev → Prop} (w : World) (f : PhaseState → PhaseState) :
    ERel P w (w.modifyTrain f) := by
  refine ⟨⟨[], by simp, by simp⟩, ?_, fun h => by simp [h]⟩
  rw [modifyTrain_train_state]; simp

lemma resolveCadenceSteps_eq_of_eval {s1 s2 : State} (h : s1.eval_state = s2.eval_state) :
    resolveCadenceSteps s1 = resolveCadenceSteps s2 := by
  unfold resolveCadenceSteps; rw [h]

lemma resolveCadenceEpochs_eq_of_eval {s1 s2 : State} (h : s1.eval_state = s2.eval_state) :
    resolveCadenceEpochs s1 = resolveCadenceEpochs s2 := by
  unfold resolveCadenceEpochs; rw [h]

lemma eRel_setPhase {P : Ev → Prop} (w : World) (x : ActivePhase) :
    ERel P w ({ w with state := { w.state with active_phase := x } }) :=
  ⟨⟨[], by simp, by simp⟩, by simp, fun h => by simp [h]⟩

lemma eRel_epochEntry {P : Ev → Prop} (w0 : World) : ERel P w0 (trainPrologue w0) :=
  ⟨⟨[], by simp [trainPrologue], by simp⟩, by simp [trainPrologue],
    fun h => by simp [trainPrologue, h]⟩

lemma eOK_epochTail {P : Ev → Prop} (s : Script) (ke : Option Int) (prev : Nat)
    (prior : List Bool) (w3 : World)
    (hwarn : P Ev.warnEmptyEpoch) (hue : P (Ev.unitHook .onTrainEpochEnd))
    (hcb : ∀ j, P (Ev.cbHook j .onTrainEpochEnd)) (hev : ke ≠ none → P Ev.evalPass) :
    EOK P w3 (epochTail s ke prev prior w3) := by
  unfold epochTail
  have hW5 : ERel P w3
      ((if any_steps_completed (trainProgress w3).num_steps_completed_in_epoch prev then w3
        else w3.emit .warnEmptyEpoch).modifyTrain
        (fun ts => { ts with progress := ts.progress.increment_epoch })) := by
    refine eRel_trans ?_ (eRel_modifyTrain _ _)
    split
    · exact eRel_rfl _
    · exact eRel_of_frameRel (frameRel_emit _ _ hwarn)
  refine eRel_trans hW5 ?_
  apply eOK_andThen
  · exact eRel_of_frameRel (frameOK_runUnitHook s _ _ hue)
  intro w6
  apply eOK_andThen
  · exact eRel_of_frameRel (frameOK_run_callback_fn s _ w6 hcb)
  intro w7
  apply eOK_andThen
  · split
    · next hcond =>
        exact eRel_of_frameRel (frameOK_evaluate_impl _ (hev (epochEvalCond_ne_none hcond)))
    · exact eRel_rfl _
  intro w8
  exact eRel_setModules _ _

/-- Every `_train_epoch_impl` call only appends `EpochEv` events, keeps the
train state present, and never clears the stop latch. -/
lemma eOK_train_epoch_impl (s : Script) (fuel : Nat) (w : World) :
    EOK (EpochEv (resolveCadenceSteps w.state) (resolveCadenceEpochs w.state)
      (trainProgress w).num_steps_completed_in_epoch) w (train_epoch_impl s fuel w) := by
  unfold train_epoch_impl
  split
  · exact eRel_epochEntry w
  · next ts0 heq =>
      have heq' : w.state.train_state = some ts0 := by
        have hsame : (trainPrologue w).state.train_state = w.state.train_state := by
          simp [trainPrologue]
        rw [← hsame]; exact heq
      have h0iff : (trainProgress w).num_steps_completed_in_epoch =
          ts0.progress.num_steps_completed_in_epoch := by
        unfold trainProgress; rw [heq']; rfl
      refine eRel_trans (eRel_epochEntry w) ?_
      apply eOK_andThen
      · split
        · next hsie =>
            have h0 : (trainProgress w).num_steps_completed_in_epoch = 0 := by
              rw [h0iff]; exact hsie
            apply eOK_andThen
            · exact eRel_of_frameRel (frameOK_runUnitHook s _ _ (Or.inl ⟨rfl, h0⟩))
            · intro wm
              exact eRel_of_frameRel (frameOK_run_callback_fn s _ wm
                (fun j => Or.inr (Or.inl ⟨⟨j, rfl⟩, h0⟩)))
        · exact eRel_rfl _
      · intro w2
        apply eOK_andThen
        · refine eRel_of_frameRel (frameRel_mono ?_ (frameOK_stepLoop s _ _ _ fuel _ w2))
          intro e he
          have hK : resolveCadenceSteps (trainPrologue w).state =
              resolveCadenceSteps w.state :=
            resolveCadenceSteps_eq_of_eval (by simp [trainPrologue])
          rw [hK] at he
          exact Or.inr (Or.inr (Or.inl he))
        · intro w3
          have hKE : resolveCadenceEpochs (trainPrologue w).state =
              resolveCadenceEpochs w.state :=
            resolveCadenceEpochs_eq_of_eval (by simp [trainPrologue])
          refine eOK_epochTail s _ _ _ w3 (Or.inr (Or.inr (Or.inr (Or.inl rfl))))
            (Or.inr (Or.inr (Or.inr (Or.inr (Or.inl rfl)))))
            (fun j => Or.inr (Or.inr (Or.inr (Or.inr (Or.inr (Or.inl ⟨j, rfl⟩))))))
            (fun hne => Or.inr (Or.inr (Or.inr (Or.inr (Or.inr (Or.inr
              ⟨rfl, by rw [← hKE]; exact hne⟩))))))

/-! ## Loop unfolding equations and stop-latch lemmas -/

lemma stepLoop_eq (s : Script) (mspe ms k : Option Int) (fuel : Nat) (rest : List Unit)
    (w : World) :
    stepLoop s mspe ms k fuel rest w =
      if w.state.should_stop || is_epoch_done (trainProgress w) mspe ms then (w, none)
      else
        match fuel with
        | 0 => (w, some .fuelExhausted)
        | fuel' + 1 =>
          match stepBody s k rest w with
          | (rest', (w1, oe)) =>
            match oe with
            | some e => if e = Exc.stopIteration then (w1, none) else (w1, some e)
            | none => stepLoop s mspe ms k fuel' rest' w1 := by
  cases fuel <;> rfl

lemma epochLoop_eq (s : Script) (me ms : Option Int) (fuel : Nat) (w : World) :
    epochLoop s me ms fuel w =
      if w.state.should_stop || is_done (trainProgress w) me ms then (w, none)
      else
        match fuel with
        | 0 => (w, some .fuelExhausted)
        | fuel' + 1 =>
          match train_epoch_impl s fuel' w with
          | (w1, some e) => (w1, some e)
          | (w1, none) => epochLoop s me ms fuel' w1 := by
  cases fuel <;> rfl

/-- Once the stop latch is observed true at the top of the step loop, the loop
exits immediately: no event is emitted and no state changes. -/
lemma stepLoop_stop (s : Script) (mspe ms k : Option Int) (fuel : Nat) (rest : List Unit)
    (w : World) (h : w.state.should_stop = true) :
    stepLoop s mspe ms k fuel rest w = (w, none) := by
  rw [stepLoop_eq, h]
  rfl

/-- Once the stop latch is observed true at the top of the epoch loop, the
loop exits immediately. -/
lemma epochLoop_stop (s : Script) (me ms : Option Int) (fuel : Nat) (w : World)
    (h : w.state.should_stop = true) :
    epochLoop s me ms fuel w = (w, none) := by
  rw [epochLoop_eq, h]
  rfl

lemma epochLoop_stop_mono (s : Script) (me ms : Option Int) :
    ∀ (fuel : Nat) (w : World), w.state.should_stop = true →
      (epochLoop s me ms fuel w).1.state.should_stop = true := by
  intro fuel
  induction fuel with
  | zero => intro w h; rw [epochLoop_stop s me ms 0 w h]; exact h
  | succ f ih => intro w h; rw [epochLoop_stop s me ms (f + 1) w h]; exact h

/-- The epoch loop never clears the stop latch (it can only run epoch calls,
which never clear it). -/
lemma epochLoop_latch (s : Script) (me ms : Option Int) :
    ∀ (fuel : Nat) (w : World), w.state.should_stop = true →
      (epochLoop s me ms fuel w).1.state.should_stop = true :=
  epochLoop_stop_mono s me ms

lemma eOK_epochLoop (s : Script) (me ms : Option Int) :
    ∀ (fuel : Nat) (w : World), EOK (fun _ : Ev => True) w (epochLoop s me ms fuel w) := by
  intro fuel
  induction fuel with
  | zero =>
      intro w
      rw [epochLoop_eq]
      split
      · exact eRel_rfl _
      · exact eRel_rfl _
  | succ f ih =>
      intro w
      rw [epochLoop_eq]
      split
      · exact eRel_rfl _
      · show EOK (fun _ : Ev => True) w
          (match train_epoch_impl s f w with
            | (w1, some e) => (w1, some e)
            | (w1, none) => epochLoop s me ms f w1)
        have hene := eRel_mono (fun e _ => trivial) (eOK_train_epoch_impl s f w)
        rcases h : train_epoch_impl s f w with ⟨w1, oe⟩
        rw [h] at hene
        cases oe with
        | some e => exact hene
        | none => exact eRel_trans hene (ih w1)

lemma eRel_trainPrologue {P : Ev → Prop} (w0 : World) : ERel P w0 (trainPrologue w0) :=
  eRel_epochEntry w0

lemma eOK_train_impl (s : Script) (fuel : Nat) (w : World) :
    EOK (fun _ : Ev => True) w (train_impl s fuel w) := by
  unfold train_impl
  split
  · exact eRel_rfl _
  · next ts heq =>
      refine eRel_trans (eRel_trainPrologue w) ?_
      apply eOK_andThen
      · exact eRel_of_frameRel (frameOK_runUnitHook s _ _ trivial)
      intro w1
      apply eOK_andThen
      · exact eRel_of_frameRel (frameOK_run_callback_fn s _ w1 (fun j => trivial))
      intro w2
      apply eOK_andThen
      · exact eOK_epochLoop s _ _ fuel w2
      intro w3
      apply eOK_andThen
      · exact eRel_of_frameRel (frameOK_runUnitHook s _ _ trivial)
      intro w4
      apply eOK_andThen
      · exact eRel_of_frameRel (frameOK_run_callback_fn s _ w4 (fun j => trivial))
      intro w5
      exact eRel_setModules _ _

lemma eOK_runOnException (s : Script) (e : Exc) (w : World) :
    EOK (fun _ : Ev => True) w (runOnException s e w) := by
  unfold runOnException
  apply eOK_andThen
  · exact eRel_of_frameRel (frameOK_runUnitHook s _ _ trivial)
  intro w1
  apply eOK_andThen
  · exact eRel_of_frameRel (frameOK_run_callback_fn s _ w1 (fun j => trivial))
  intro w2
  exact eRel_rfl _

lemma eRel_setEntryTrain {P : Ev → Prop} (w : World) : ERel P w (setEntryTrain w) :=
  ⟨⟨[], by simp [setEntryTrain], by simp⟩, by simp [setEntryTrain],
    fun h => by simp [setEntryTrain, h]⟩

lemma eOK_excWrapper (s : Script) (r : World × Option Exc) :
    EOK (fun _ : Ev => True) r.1 (excWrapper s r) := by
  rcases r with ⟨w1, oe⟩
  cases oe with
  | none => exact eRel_rfl _
  | some e =>
      cases e with
      | fuelExhausted => exact eRel_rfl _
      | stopIteration => exact eOK_runOnException s _ w1
      | runtimeError m => exact eOK_runOnException s _ w1
      | valueError m => exact eOK_runOnException s _ w1
      | userError t => exact eOK_runOnException s _ w1

/-- The whole `train` entry point never clears the stop latch: a caller who
stopped the run stays stopped. -/
lemma train_stop_mono (s : Script) (fuel : Nat) (w : World)
    (h : w.state.should_stop = true) :
    (train s fuel w).1.state.should_stop = true := by
  unfold train
  have h1 : ERel (fun _ : Ev => True) w (train_impl s fuel (setEntryTrain w)).1 :=
    eRel_trans (eRel_setEntryTrain w) (eOK_train_impl s fuel (setEntryTrain w))
  have h2 := eOK_excWrapper s (train_impl s fuel (setEntryTrain w))
  exact (eRel_trans h1 h2).2.2 h


/-! ## Callback dispatch without raising handlers, and quiet runs never raise -/

lemma runCbAux_noraise (s : Script) (h : HookName)
    (hnr : ∀ j w', (s.cbEff j h w').raise = none) :
    ∀ (r i : Nat) (w : World), ∃ w2, runCbAux s h i r w = (w2, none) ∧
      w2.trace = w.trace ++ (List.range r).map (fun j => Ev.cbHook (i + j) h) := by
  intro r
  induction r with
  | zero => intro i w; exact ⟨w, rfl, by simp⟩
  | succ r ih =>
      intro i w
      have hone : runCbAux s h i (r + 1) w =
          match applyEff (s.cbEff i h w) (w.emit (.cbHook i h)) with
          | (w1, some e) => (w1, some e)
          | (w1, none) => runCbAux s h (i + 1) r w1 := rfl
      have hred : runCbAux s h i (r + 1) w =
          runCbAux s h (i + 1) r ((w.emit (.cbHook i h)).applyStop (s.cbEff i h w).callStop) := by
        rw [hone]
        unfold applyEff
        rw [hnr i w]
      obtain ⟨w2, hrun, htr⟩ :=
        ih (i + 1) ((w.emit (.cbHook i h)).applyStop (s.cbEff i h w).callStop)
      refine ⟨w2, by rw [hred, hrun], ?_⟩
      rw [htr, applyStop_trace, emit_trace, List.append_assoc, List.singleton_append]
      rw [show (Ev.cbHook i h :: (List.range r).map (fun j => Ev.cbHook (i + 1 + j) h)) =
        (List.range (r + 1)).map (fun j => Ev.cbHook (i + j) h) from range_cbHook_shift i r h]

lemma run_callback_fn_noraise (s : Script) (h : HookName)
    (hnr : ∀ j w', (s.cbEff j h w').raise = none) (w : World) :
    ∃ w2, run_callback_fn s h w = (w2, none) ∧
      w2.trace = w.trace ++ cbEvs s.nCallbacks h := by
  obtain ⟨w2, h1, h2⟩ := runCbAux_noraise s h hnr s.nCallbacks 0 w
  exact ⟨w2, h1, by rw [h2]; simp [cbEvs]⟩

lemma runOnException_noraise (s : Script) (e : Exc) (w : World)
    (hu : ∀ w', (s.unitEff .onException w').raise = none)
    (hc : ∀ j w', (s.cbEff j .onException w').raise = none) :
    ∃ w2, runOnException s e w = (w2, some e) ∧
      w2.trace = w.trace ++ [Ev.unitHook .onException] ++ cbEvs s.nCallbacks .onException := by
  unfold runOnException
  have h1 : runUnitHook s .onException w =
      ((w.emit (.unitHook .onException)).applyStop (s.unitEff .onException w).callStop, none) := by
    rw [runUnitHook_eq, hu]
  rw [h1, andThen_ok]
  obtain ⟨w2, h2, h3⟩ := run_callback_fn_noraise s .onException hc
    ((w.emit (.unitHook .onException)).applyStop (s.unitEff .onException w).callStop)
  rw [h2, andThen_ok]
  refine ⟨w2, rfl, ?_⟩
  rw [h3, applyStop_trace, emit_trace]

lemma runOnException_unit_raises (s : Script) (e e2 : Exc) (w : World)
    (hr : (s.unitEff .onException w).raise = some e2) :
    runOnException s e w =
      ((w.emit (.unitHook .onException)).applyStop (s.unitEff .onException w).callStop,
        some e2) := by
  unfold runOnException
  rw [runUnitHook_eq, hr]
  rfl

/-- Result of a quiet run: either finished normally or still running (fuel
exhausted) — never a Python exception. -/
def QuietRes (r : World × Option Exc) : Prop :=
  r.2 = none ∨ r.2 = some .fuelExhausted

lemma quietRes_andThen {r : World × Option Exc} {f : World → World × Option Exc}
    (h1 : QuietRes r) (h2 : ∀ wm, r = (wm, none) → QuietRes (f wm)) :
    QuietRes (andThen r f) := by
  rcases r with ⟨w, oe⟩
  cases oe with
  | none => exact h2 w rfl
  | some e => exact h1

lemma quietRes_runUnitHook (c : Nat) (h : HookName) (w : World) :
    QuietRes (runUnitHook (quietScript c) h w) := Or.inl rfl

lemma quietRes_run_callback_fn (c : Nat) (h : HookName) (w : World) :
    QuietRes (run_callback_fn (quietScript c) h w) := by
  rw [run_callback_fn_quiet]
  exact Or.inl rfl

lemma quietRes_evalStep (k : Option Int) (w5 : World) :
    QuietRes (if stepEvalCond k (trainProgress w5).num_steps_completed_in_epoch then
      evaluate_impl w5
    else (w5, none)) := by
  split
  · exact Or.inl rfl
  · exact Or.inl rfl

lemma quietRes_stepBodyCore (c : Nat) (k : Option Int) (w : World) :
    QuietRes (stepBodyCore (quietScript c) k w) := by
  unfold stepBodyCore
  apply quietRes_andThen (quietRes_run_callback_fn c _ w)
  intro w1 h1
  apply quietRes_andThen (Or.inl rfl)
  intro w2 h2
  apply quietRes_andThen (quietRes_run_callback_fn c _ _)
  intro w4 h4
  exact quietRes_evalStep k (w4.modifyTrain (fun ts => { ts with step_output := none }))

lemma stepBody_quiet_exc (c : Nat) (k : Option Int) (rest : List Unit) (w : World) :
    (stepBody (quietScript c) k rest w).2.2 = none ∨
    (stepBody (quietScript c) k rest w).2.2 = some .stopIteration ∨
    (stepBody (quietScript c) k rest w).2.2 = some .fuelExhausted := by
  unfold stepBody
  split
  · rcases quietRes_stepBodyCore c k w with h | h
    · exact Or.inl h
    · exact Or.inr (Or.inr h)
  · cases rest with
    | nil => exact Or.inr (Or.inl rfl)
    | cons b r =>
        rcases quietRes_stepBodyCore c k w with h | h
        · exact Or.inl h
        · exact Or.inr (Or.inr h)

lemma quietRes_stepLoop (c : Nat) (mspe ms k : Option Int) :
    ∀ (fuel : Nat) (rest : List Unit) (w : World),
      QuietRes (stepLoop (quietScript c) mspe ms k fuel rest w) := by
  intro fuel
  induction fuel with
  | zero =>
      intro rest w
      rw [stepLoop_eq]
      split
      · exact Or.inl rfl
      · exact Or.inr rfl
  | succ f ih =>
      intro rest w
      rw [stepLoop_eq]
      split
      · exact Or.inl rfl
      · show QuietRes
          (match stepBody (quietScript c) k rest w with
            | (rest', (w1, oe)) =>
              match oe with
              | some e => if e = Exc.stopIteration then (w1, none) else (w1, some e)
              | none => stepLoop (quietScript c) mspe ms k f rest' w1)
        have hexc := stepBody_quiet_exc c k rest w
        rcases hsb : stepBody (quietScript c) k rest w with ⟨rest', w1, oe⟩
        rw [hsb] at hexc
        cases oe with
        | none => exact ih rest' w1
        | some e =>
            rcases hexc with hx | hx | hx
            · simp at hx
            · have he : e = .stopIteration := by simpa using hx
              subst he
              simp [QuietRes]
            · have he : e = .fuelExhausted := by simpa using hx
              subst he
              right
              simp

lemma quietRes_epochTail (c : Nat) (ke : Option Int) (prev : Nat) (prior : List Bool)
    (w3 : World) : QuietRes (epochTail (quietScript c) ke prev prior w3) := by
  unfold epochTail
  apply quietRes_andThen (quietRes_runUnitHook c _ _)
  intro w6 h6
  apply quietRes_andThen (quietRes_run_callback_fn c _ _)
  intro w7 h7
  apply quietRes_andThen
  · split
    · exact Or.inl rfl
    · exact Or.inl rfl
  intro w8 h8
  exact Or.inl rfl

lemma quietRes_train_epoch_impl (c fuel : Nat) (w : World)
    (hts : w.state.train_state.isSome = true) :
    QuietRes (train_epoch_impl (quietScript c) fuel w) := by
  unfold train_epoch_impl
  split
  · next heq =>
      exfalso
      have hsame : (trainPrologue w).state.train_state = w.state.train_state := by
        simp [trainPrologue]
      rw [hsame] at heq
      rw [heq] at hts
      simp at hts
  · next ts0 heq =>
      apply quietRes_andThen
      · split
        · apply quietRes_andThen (quietRes_runUnitHook c _ _)
          intro w1 h1
          exact quietRes_run_callback_fn c _ w1
        · exact Or.inl rfl
      intro w2 h2
      apply quietRes_andThen (quietRes_stepLoop c _ _ _ fuel _ w2)
      intro w3 h3
      exact quietRes_epochTail c _ _ _ w3

lemma quietRes_epochLoop (c : Nat) (me ms : Option Int) :
    ∀ (fuel : Nat) (w : World), w.state.train_state.isSome = true →
      QuietRes (epochLoop (quietScript c) me ms fuel w) := by
  intro fuel
  induction fuel with
  | zero =>
      intro w hts
      rw [epochLoop_eq]
      split
      · exact Or.inl rfl
      · exact Or.inr rfl
  | succ f ih =>
      intro w hts
      rw [epochLoop_eq]
      split
      · exact Or.inl rfl
      · show QuietRes
          (match train_epoch_impl (quietScript c) f w with
            | (w1, some e) => (w1, some e)
            | (w1, none) => epochLoop (quietScript c) me ms f w1)
        have hne := quietRes_train_epoch_impl c f w hts
        have hsome := (eOK_train_epoch_impl (quietScript c) f w).2.1
        rcases h : train_epoch_impl (quietScript c) f w with ⟨w1, oe⟩
        rw [h] at hne hsome
        cases oe with
        | some e => exact hne
        | none =>
            refine ih w1 ?_
            rw [hsome, hts]

lemma quietRes_train_impl (c fuel : Nat) (w : World)
    (hts : w.state.train_state.isSome = true) :
    QuietRes (train_impl (quietScript c) fuel w) := by
  unfold train_impl
  split
  · next heq =>
      exfalso
      rw [heq] at hts
      simp at hts
  · next ts heq =>
      apply quietRes_andThen (quietRes_runUnitHook c _ _)
      intro w1 h1
      apply quietRes_andThen (quietRes_run_callback_fn c _ w1)
      intro w2 h2
      apply quietRes_andThen
      · refine quietRes_epochLoop c _ _ fuel w2 ?_
        have e1 : (runUnitHook (quietScript c) .onTrainStart (trainPrologue w)).1 = w1 :=
          congrArg Prod.fst h1
        have e2 : (run_callback_fn (quietScript c) .onTrainStart w1).1 = w2 :=
          congrArg Prod.fst h2
        have i1 : w1.state.train_state = w.state.train_state := by
          rw [← e1, runUnitHook_train_state]
          simp [trainPrologue]
        have i2 : w2.state.train_state = w1.state.train_state := by
          rw [← e2]
          rw [run_callback_fn_quiet]
        rw [i2, i1, hts]
      intro w3 h3
      apply quietRes_andThen (quietRes_runUnitHook c _ _)
      intro w4 h4
      apply quietRes_andThen (quietRes_run_callback_fn c _ w4)
      intro w5 h5
      exact Or.inl rfl

lemma quietRes_train (c fuel : Nat) (w : World)
    (hts : w.state.train_state.isSome = true) :
    QuietRes (train (quietScript c) fuel w) := by
  unfold train
  have hts2 : (setEntryTrain w).state.train_state.isSome = true := by
    simpa [setEntryTrain] using hts
  have hno := quietRes_train_impl c fuel (setEntryTrain w) hts2
  rcases hi : train_impl (quietScript c) fuel (setEntryTrain w) with ⟨w1, oe⟩
  rw [hi] at hno
  cases oe with
  | none => exact Or.inl rfl
  | some e =>
      rcases hno with hx | hx
      · simp at hx
      · have he : e = .fuelExhausted := by simpa using hx
        subst he
        exact Or.inr rfl

/-! ## Scenario scripts and worlds used by the claim theorems -/

/-- A unit whose `train_step` raises a user exception on every call; hooks are
quiet. -/
def raisingStepScript : Script :=
  { stepEff := fun _ => { raise := some (.userError 7) } }

/-- One callback whose `on_train_step_end` calls `state.stop()`. -/
def stopCbScript : Script :=
  { nCallbacks := 1,
    cbEff := fun _ h _ => if h = .onTrainStepEnd then { callStop := true } else {} }

/-- A run with two batches, `max_epochs=1`, and a single tracked module whose
training mode is `False` (eval) before the run. -/
def wC1 : World :=
  { state := { train_state := some { dataloader := [(), ()], max_epochs := some 1 } },
    modules := [false] }

/-- A run with three batches and `max_epochs=1`. -/
def wStop3 : World :=
  { state := { train_state := some { dataloader := [(), (), ()], max_epochs := some 1 } } }

/-! ## Claim theorems -/

/-- C1: the claim states that the training mode of every tracked module is
restored to its prior value on exit from `train`, also on exit via a
re-raised exception.  The code has no try/finally around the restore
(`train.py` lines 108/127 and 186/284), so on the exception path the modules
keep the train mode the loop set: with one tracked module whose prior mode
was `False` and a `train_step` that raises, `train` re-raises the exception
and leaves the module in training mode `True` — the restore never ran.  This
contradicts the code's own comment ("This ensures that side-effects made by
the loop are reset before returning back to the user") and the spec's
guarantee, so the claim is right and the code is wrong. -/
theorem C1_mode_not_restored_on_exception :
    (train raisingStepScript 10 wC1).2 = some (.userError 7) ∧
    wC1.modules = [false] ∧
    (train raisingStepScript 10 wC1).1.modules = [true] := by
  refine ⟨rfl, rfl, rfl⟩

/-- C3: `should_stop` starts false (any state built by `init_train_state`),
is set to true by the one-way `stop()` call, is never cleared during a run of
`train`, and both loops observe it before each step and before each epoch and
start nothing once it is true; when a `on_train_step_end` callback sets it,
the step in flight has already completed (its progress increment and its
`on_train_step_end` dispatch), and no further step begins despite remaining
batches. -/
theorem C3_should_stop_latch :
    (∀ dl me ms mspe st, init_train_state dl me ms mspe = .ok st →
      st.should_stop = false) ∧
    (∀ st : State, (State.stop st).should_stop = true) ∧
    (∀ s fuel (w : World), w.state.should_stop = true →
      (train s fuel w).1.state.should_stop = true) ∧
    (∀ s mspe ms k fuel rest (w : World), w.state.should_stop = true →
      stepLoop s mspe ms k fuel rest w = (w, none)) ∧
    (∀ s me ms fuel (w : World), w.state.should_stop = true →
      epochLoop s me ms fuel w = (w, none)) ∧
    ((train_epoch_impl stopCbScript 10 wStop3).2 = none ∧
      (trainProgress (train_epoch_impl stopCbScript 10 wStop3).1).num_steps_completed = 1 ∧
      (train_epoch_impl stopCbScript 10 wStop3).1.state.should_stop = true ∧
      (train_epoch_impl stopCbScript 10 wStop3).1.trace.count Ev.trainStep = 1 ∧
      (train_epoch_impl stopCbScript 10 wStop3).1.trace.count
        (Ev.cbHook 0 .onTrainStepEnd) = 1) := by
  refine ⟨?_, ?_, ?_, ?_, ?_, ?_⟩
  · intro dl me ms mspe st h
    unfold init_train_state at h
    rcases hp : PhaseState.init dl me ms mspe none none with e | ps
    · rw [hp] at h; cases h
    · rw [hp] at h
      cases h
      rfl
  · intro st; rfl
  · intro s fuel w h
    exact train_stop_mono s fuel w h
  · intro s mspe ms k fuel rest w h
    exact stepLoop_stop s mspe ms k fuel rest w h
  · intro s me ms fuel w h
    exact epochLoop_stop s me ms fuel w h
  · refine ⟨rfl, rfl, rfl, ?_, ?_⟩ <;> decide

theorem C3_should_stop_latch_witness :
    (({} : State).stop.should_stop = true) ∧
    ((train (quietScript 0) 1 { state := { should_stop := true } }).1.state.should_stop
      = true) ∧
    (stepLoop (quietScript 0) none none none 1 [] { state := { should_stop := true } } =
      ({ state := { should_stop := true } }, none)) ∧
    (epochLoop (quietScript 0) none none 1 { state := { should_stop := true } } =
      ({ state := { should_stop := true } }, none)) ∧
    (({ entry_point := EntryPoint.TRAIN,
        train_state := some { dataloader := [()] } } : State).should_stop = false) :=
  ⟨C3_should_stop_latch.2.1 {},
    C3_should_stop_latch.2.2.1 (quietScript 0) 1 { state := { should_stop := true } } rfl,
    C3_should_stop_latch.2.2.2.1 (quietScript 0) none none none 1 []
      { state := { should_stop := true } } rfl,
    C3_should_stop_latch.2.2.2.2.1 (quietScript 0) none none 1
      { state := { should_stop := true } } rfl,
    C3_should_stop_latch.1 [()] none none none _ rfl⟩

/-- C4: the top-level train loop starts a new epoch iff
`not (should_stop or is_done)`; `is_done` is true iff max_steps is set and
reached, or max_epochs is set and reached; with both limits `None` the
predicate is never true. -/
theorem C4_top_loop_condition :
    (∀ p me ms, is_done p me ms = true ↔
      ((∃ m, ms = some m ∧ (m : Int) ≤ p.num_steps_completed) ∨
       (∃ m, me = some m ∧ (m : Int) ≤ p.num_epochs_completed))) ∧
    (∀ p, is_done p none none = false) ∧
    (∀ s me ms fuel (w : World),
      (w.state.should_stop || is_done (trainProgress w) me ms) = true →
      epochLoop s me ms fuel w = (w, none)) ∧
    (∀ s me ms fuel (w : World),
      (w.state.should_stop || is_done (trainProgress w) me ms) = false →
      epochLoop s me ms (fuel + 1) w =
        match train_epoch_impl s fuel w with
        | (w1, some e) => (w1, some e)
        | (w1, none) => epochLoop s me ms fuel w1) := by
  refine ⟨?_, ?_, ?_, ?_⟩
  · intro p me ms
    unfold is_done
    cases me <;> cases ms <;> simp [ge_iff_le]
  · intro p; rfl
  · intro s me ms fuel w h
    rw [epochLoop_eq, h]
    rfl
  · intro s me ms fuel w h
    rw [epochLoop_eq, h]
    rfl

theorem C4_top_loop_condition_witness :
    (is_done { num_epochs_completed := 2 } (some 2) none = true ↔
      ((∃ m, (none : Option Int) = some m ∧
        (m : Int) ≤ ({ num_epochs_completed := 2 } : Progress).num_steps_completed) ∨
       (∃ m, (some 2 : Option Int) = some m ∧
        (m : Int) ≤ ({ num_epochs_completed := 2 } : Progress).num_epochs_completed))) ∧
    (epochLoop (quietScript 0) (some 0) none 1 {} = ({}, none)) ∧
    (epochLoop (quietScript 0) none none (0 + 1) {} =
      match train_epoch_impl (quietScript 0) 0 {} with
      | (w1, some e) => (w1, some e)
      | (w1, none) => epochLoop (quietScript 0) none none 0 w1) :=
  ⟨C4_top_loop_condition.1 { num_epochs_completed := 2 } (some 2) none,
    C4_top_loop_condition.2.2.1 (quietScript 0) (some 0) none 1 {} (by decide),
    C4_top_loop_condition.2.2.2 (quietScript 0) none none 0 {} (by decide)⟩

/-- A run with one batch, `max_epochs=1`, and both evaluation cadences stored
as `0`. -/
def wC10 : World :=
  { state :=
      { train_state := some { dataloader := [()], max_epochs := some 1 },
        eval_state :=
          some { evaluate_every_n_steps := some 0, evaluate_every_n_epochs := some 0 } } }

/-- C10: `PhaseState` construction accepts `0` for both evaluation cadences
(`_check_loop_condition` only rejects negatives), and the epoch routine
resolves a stored `0` exactly like `None` (Python truthiness at `train.py`
lines 193-197), so with both cadences `0` or absent no interleaved evaluation
pass is ever emitted, for every script and world. -/
theorem C10_zero_cadence_like_none :
    (∀ dl, ∃ ps, PhaseState.init dl none none none (some 0) (some 0) = .ok ps) ∧
    truthyOpt (some 0) = truthyOpt none ∧
    (∀ (st : State) (es : PhaseState), st.eval_state = some es →
      es.evaluate_every_n_steps = some 0 → resolveCadenceSteps st = none) ∧
    (∀ (st : State) (es : PhaseState), st.eval_state = some es →
      es.evaluate_every_n_epochs = some 0 → resolveCadenceEpochs st = none) ∧
    (∀ s fuel (w : World), resolveCadenceSteps w.state = none →
      resolveCadenceEpochs w.state = none →
      ∀ t, (train_epoch_impl s fuel w).1.trace = w.trace ++ t → Ev.evalPass ∉ t) := by
  refine ⟨?_, rfl, ?_, ?_, ?_⟩
  · intro dl; exact ⟨_, rfl⟩
  · intro st es hes h0
    unfold resolveCadenceSteps
    rw [hes]
    show truthyOpt es.evaluate_every_n_steps = none
    rw [h0]
    rfl
  · intro st es hes h0
    unfold resolveCadenceEpochs
    rw [hes]
    show truthyOpt es.evaluate_every_n_epochs = none
    rw [h0]
    rfl
  · intro s fuel w hk hke t htr hmem
    obtain ⟨⟨t2, ht2, hm⟩, _, _⟩ := eOK_train_epoch_impl s fuel w
    have hteq : t = t2 := by
      have hcat : w.trace ++ t = w.trace ++ t2 := by
        rw [← htr, ← ht2]
      exact List.append_cancel_left hcat
    subst hteq
    have hev := hm _ hmem
    rw [hk, hke] at hev
    rcases hev with ⟨h, _⟩ | ⟨⟨j, h⟩, _⟩ | hst | h | h | ⟨j, h⟩ | ⟨h, hne⟩
    · cases h
    · cases h
    · rcases hst with h | ⟨j, h⟩ | ⟨j, h⟩ | ⟨h, hne⟩
      · cases h
      · cases h
      · cases h
      · exact hne rfl
    · cases h
    · cases h
    · cases h
    · exact hne rfl

theorem C10_zero_cadence_like_none_witness :
    resolveCadenceSteps { eval_state := some { evaluate_every_n_steps := some 0 } } = none ∧
    resolveCadenceEpochs { eval_state := some { evaluate_every_n_epochs := some 0 } } = none ∧
    Ev.evalPass ∉ ((train_epoch_impl (quietScript 0) 2 wC10).1.trace.drop
      wC10.trace.length) :=
  ⟨C10_zero_cadence_like_none.2.2.1 _ { evaluate_every_n_steps := some 0 } rfl rfl,
    C10_zero_cadence_like_none.2.2.2.1 _ { evaluate_every_n_epochs := some 0 } rfl rfl,
    C10_zero_cadence_like_none.2.2.2.2 (quietScript 0) 2 wC10 rfl rfl _ (by decide)⟩

lemma excWrapper_err (s : Script) (r : World × Option Exc) (w' : World) (e : Exc)
    (h : r = (w', some e)) (hne : e ≠ .fuelExhausted) :
    excWrapper s r = runOnException s e w' := by
  subst h
  cases e with
  | fuelExhausted => exact absurd rfl hne
  | stopIteration => rfl
  | runtimeError m => rfl
  | valueError m => rfl
  | userError t => rfl

/-- A unit whose `on_train_start` hook raises; used to witness the exception
protocol. -/
def raisingStartScript : Script :=
  { nCallbacks := 2,
    unitEff := fun h _ =>
      if h = .onTrainStart then { raise := some (.userError 3) } else {} }

/-- A unit whose `train_step` raises and whose `on_exception` handler itself
raises; used to witness that handler exceptions are not caught. -/
def raisingHandlerScript : Script :=
  { stepEff := fun _ => { raise := some (.userError 7) },
    unitEff := fun h _ =>
      if h = .onException then { raise := some (.userError 9) } else {} }

/-- C2: when the body of `train` (resp. `train_epoch`) raises `e`, the driver
invokes `on_exception` on the unit, then on every callback in list order —
exactly once each, which the trace equality shows — and re-raises the
original `e` unmodified, provided the handlers themselves do not raise; and
an exception raised inside the unit's `on_exception` handler is not caught:
it propagates instead of the original. -/
theorem C2_on_exception_protocol :
    (∀ s fuel (w w' : World) (e : Exc),
      train_impl s fuel (setEntryTrain w) = (w', some e) → e ≠ .fuelExhausted →
      (∀ w0, (s.unitEff .onException w0).raise = none) →
      (∀ j w0, (s.cbEff j .onException w0).raise = none) →
      ∃ w2, train s fuel w = (w2, some e) ∧
        w2.trace = w'.trace ++ [Ev.unitHook .onException] ++
          cbEvs s.nCallbacks .onException) ∧
    (∀ s fuel (w w' : World) (e : Exc),
      train_epoch_body s fuel w = (w', some e) → e ≠ .fuelExhausted →
      (∀ w0, (s.unitEff .onException w0).raise = none) →
      (∀ j w0, (s.cbEff j .onException w0).raise = none) →
      ∃ w2, train_epoch s fuel w = (w2, some e) ∧
        w2.trace = w'.trace ++ [Ev.unitHook .onException] ++
          cbEvs s.nCallbacks .onException) ∧
    (∀ s fuel (w w' : World) (e e2 : Exc),
      train_impl s fuel (setEntryTrain w) = (w', some e) → e ≠ .fuelExhausted →
      (s.unitEff .onException w').raise = some e2 →
      (train s fuel w).2 = some e2) := by
  refine ⟨?_, ?_, ?_⟩
  · intro s fuel w w' e himpl hne hu hc
    obtain ⟨w2, h1, h2⟩ := runOnException_noraise s e w' hu hc
    refine ⟨w2, ?_, h2⟩
    unfold train
    rw [excWrapper_err s _ w' e himpl hne, h1]
  · intro s fuel w w' e hbody hne hu hc
    obtain ⟨w2, h1, h2⟩ := runOnException_noraise s e w' hu hc
    refine ⟨w2, ?_, h2⟩
    unfold train_epoch
    rw [excWrapper_err s _ w' e hbody hne, h1]
  · intro s fuel w w' e e2 himpl hne hr
    unfold train
    rw [excWrapper_err s _ w' e himpl hne, runOnException_unit_raises s e e2 w' hr]

theorem C2_on_exception_protocol_witness :
    (∃ w2, train raisingStartScript 5 wStop3 = (w2, some (.userError 3)) ∧
      w2.trace = (train_impl raisingStartScript 5 (setEntryTrain wStop3)).1.trace ++
        [Ev.unitHook .onException] ++ cbEvs 2 .onException) ∧
    (train raisingHandlerScript 5 wStop3).2 = some (.userError 9) := by
  constructor
  · exact C2_on_exception_protocol.1 raisingStartScript 5 wStop3
      (train_impl raisingStartScript 5 (setEntryTrain wStop3)).1 (.userError 3)
      (by decide) (by decide) (fun w0 => rfl) (fun j w0 => rfl)
  · exact C2_on_exception_protocol.2.2 raisingHandlerScript 5 wStop3
      (train_impl raisingHandlerScript 5 (setEntryTrain wStop3)).1 (.userError 7)
      (.userError 9) (by decide) (by decide) rfl

/-- A loop-limit value `_check_loop_condition` accepts: absent or
non-negative. -/
def OkLimit (o : Option Int) : Prop := ∀ v, o = some v → 0 ≤ v

lemma check_loop_condition_none_iff (name : String) (o : Option Int) :
    check_loop_condition name o = none ↔ OkLimit o := by
  unfold check_loop_condition OkLimit
  cases o with
  | none => simp
  | some v =>
      by_cases h : v < 0 <;> simp [h] <;> omega

lemma PhaseState_init_ok_iff (dl : List Unit) (me ms mspe ees eee : Option Int) :
    (∃ ps, PhaseState.init dl me ms mspe ees eee = .ok ps) ↔
      (OkLimit me ∧ OkLimit ms ∧ OkLimit mspe ∧ OkLimit ees ∧ OkLimit eee) := by
  rw [← check_loop_condition_none_iff "max_epochs" me,
    ← check_loop_condition_none_iff "max_steps" ms,
    ← check_loop_condition_none_iff "max_steps_per_epoch" mspe,
    ← check_loop_condition_none_iff "evaluate_every_n_steps" ees,
    ← check_loop_condition_none_iff "evaluate_every_n_epochs" eee]
  rcases h1 : check_loop_condition "max_epochs" me with _ | e1 <;>
  rcases h2 : check_loop_condition "max_steps" ms with _ | e2 <;>
  rcases h3 : check_loop_condition "max_steps_per_epoch" mspe with _ | e3 <;>
  rcases h4 : check_loop_condition "evaluate_every_n_steps" ees with _ | e4 <;>
  rcases h5 : check_loop_condition "evaluate_every_n_epochs" eee with _ | e5 <;>
    simp [PhaseState.init, h1, h2, h3, h4, h5]

/-- C8: configuration errors are raised immediately, before any step.
(a) `PhaseState` construction succeeds iff every provided loop-limit value is
non-negative (absent values and non-negative values are accepted).
(b) With a quiet unit, `train` raises iff `train_state` is missing: when it is
missing the raise is immediate — the trace gains only the `on_exception`
dispatch, no step or hook ran — and when it is present no exception is ever
raised (`fuelExhausted` only reports the embedding's fuel running out).
(c) With a quiet unit, `train_epoch` raises iff `max_epochs ≠ 1` (in
particular for `max_epochs = None`), again before any step; with
`max_epochs = 1` and a fresh epoch it completes without raising. -/
theorem C8_config_errors :
    (∀ dl me ms mspe ees eee, (∃ ps, PhaseState.init dl me ms mspe ees eee = .ok ps) ↔
      (OkLimit me ∧ OkLimit ms ∧ OkLimit mspe ∧ OkLimit ees ∧ OkLimit eee)) ∧
    (∀ c fuel (w : World), w.state.train_state = none →
      ∃ w2, train (quietScript c) fuel w =
          (w2, some (.runtimeError "Expected train_state to be initialized")) ∧
        w2.trace = w.trace ++ [Ev.unitHook .onException] ++ cbEvs c .onException) ∧
    (∀ c fuel (w : World), w.state.train_state.isSome = true →
      ∀ e, (train (quietScript c) fuel w).2 = some e → e = .fuelExhausted) ∧
    (∀ c fuel (w : World) (ts : PhaseState), w.state.train_state = some ts →
      ts.max_epochs ≠ some 1 →
      ∃ w2, train_epoch (quietScript c) fuel w =
          (w2, some (.runtimeError "Expected state.train_state.max_epochs to be 1")) ∧
        w2.trace = w.trace ++ [Ev.unitHook .onException] ++ cbEvs c .onException) ∧
    (∀ c fuel (w : World) (ts : PhaseState), w.state.train_state = some ts →
      ts.max_epochs = some 1 → ts.max_steps_per_epoch = none → ts.max_steps = none →
      ts.progress.num_steps_completed_in_epoch = 0 → ts.step_output = none →
      w.state.should_stop = false → ts.dataloader.length < fuel →
      (train_epoch (quietScript c) fuel w).2 = none) := by
  refine ⟨PhaseState_init_ok_iff, ?_, ?_, ?_, ?_⟩
  · intro c fuel w hnone
    have himpl : train_impl (quietScript c) fuel (setEntryTrain w) =
        (setEntryTrain w, some (.runtimeError "Expected train_state to be initialized")) := by
      unfold train_impl
      have h2 : (setEntryTrain w).state.train_state = none := by
        simpa [setEntryTrain] using hnone
      rw [h2]
    obtain ⟨w2, h1, h2⟩ := runOnException_noraise (quietScript c)
      (.runtimeError "Expected train_state to be initialized") (setEntryTrain w)
      (fun w0 => rfl) (fun j w0 => rfl)
    refine ⟨w2, ?_, ?_⟩
    · unfold train
      rw [excWrapper_err (quietScript c) _ (setEntryTrain w) _ himpl (by simp), h1]
    · rw [h2]
      rfl
  · intro c fuel w hsome e he
    rcases quietRes_train c fuel w hsome with hx | hx
    · rw [he] at hx; cases hx
    · rw [he] at hx
      exact Option.some.inj hx
  · intro c fuel w ts hts hne
    have hbody : train_epoch_body (quietScript c) fuel w =
        (w, some (.runtimeError "Expected state.train_state.max_epochs to be 1")) := by
      unfold train_epoch_body
      rw [hts]
      show (if ts.max_epochs ≠ some 1 then
          (w, some (Exc.runtimeError "Expected state.train_state.max_epochs to be 1"))
        else train_epoch_impl (quietScript c) fuel (setEntryTrain w)) = _
      rw [if_pos hne]
    obtain ⟨w2, h1, h2⟩ := runOnException_noraise (quietScript c)
      (.runtimeError "Expected state.train_state.max_epochs to be 1") w
      (fun w0 => rfl) (fun j w0 => rfl)
    refine ⟨w2, ?_, h2⟩
    unfold train_epoch
    rw [excWrapper_err (quietScript c) _ w _ hbody (by simp), h1]
  · intro c fuel w ts hts hme hmspe hms hsie hout hstop hfuel
    have hts2 : (setEntryTrain w).state.train_state = some ts := by
      simpa [setEntryTrain] using hts
    have hstop2 : (setEntryTrain w).state.should_stop = false := by
      simpa [setEntryTrain] using hstop
    have himpl := train_epoch_impl_quiet c fuel (setEntryTrain w) ts hts2 hstop2
      hmspe hms hsie hout hfuel
    have hbody : train_epoch_body (quietScript c) fuel w =
        train_epoch_impl (quietScript c) fuel (setEntryTrain w) := by
      unfold train_epoch_body
      rw [hts]
      show (if ts.max_epochs ≠ some 1 then
          (w, some (Exc.runtimeError "Expected state.train_state.max_epochs to be 1"))
        else train_epoch_impl (quietScript c) fuel (setEntryTrain w)) = _
      rw [if_neg (by simp [hme])]
    unfold train_epoch
    rw [hbody, himpl]
    rfl

theorem C8_config_errors_witness :
    ((∃ ps, PhaseState.init [] (some 1) none none none none = .ok ps) ↔
      (OkLimit (some 1) ∧ OkLimit none ∧ OkLimit none ∧ OkLimit none ∧ OkLimit none)) ∧
    (∃ w2, train (quietScript 1) 3 {} =
        (w2, some (.runtimeError "Expected train_state to be initialized")) ∧
      w2.trace = ([] : List Ev) ++ [Ev.unitHook .onException] ++ cbEvs 1 .onException) ∧
    (∀ e, (train (quietScript 0) 3 wStop3).2 = some e → e = .fuelExhausted) ∧
    (∃ w2, train_epoch (quietScript 0) 3
        { state := { train_state := some { dataloader := [()] } } } =
        (w2, some (.runtimeError "Expected state.train_state.max_epochs to be 1")) ∧
      w2.trace = ([] : List Ev) ++ [Ev.unitHook .onException] ++ cbEvs 0 .onException) ∧
    (train_epoch (quietScript 0) 4 wStop3).2 = none :=
  ⟨C8_config_errors.1 [] (some 1) none none none none,
    C8_config_errors.2.1 1 3 {} rfl,
    C8_config_errors.2.2.1 0 3 wStop3 rfl,
    C8_config_errors.2.2.2.1 0 3 { state := { train_state := some { dataloader := [()] } } }
      { dataloader := [()] } rfl (by decide),
    C8_config_errors.2.2.2.2 0 4 wStop3 { dataloader := [(), (), ()], max_epochs := some 1 }
      rfl rfl rfl rfl rfl rfl rfl (by decide)⟩

lemma count_trainStep_cbEvs (c : Nat) (h : HookName) :
    (cbEvs c h).count Ev.trainStep = 0 := by
  rw [List.count_eq_zero]
  simp [cbEvs]

lemma count_trainStep_stepBlock (c : Nat) (k : Option Int) (m : Nat) :
    (stepBlock c k m).count Ev.trainStep = 1 := by
  simp [stepBlock, List.count_append, count_trainStep_cbEvs]
  split <;> simp

lemma count_trainStep_flatten (c : Nat) (k : Option Int) :
    ∀ (n base : Nat),
      (((List.range n).map (fun i => stepBlock c k (base + i + 1))).flatten).count
        Ev.trainStep = n := by
  intro n
  induction n with
  | zero => intro base; simp
  | succ m ih =>
      intro base
      rw [List.range_succ_eq_map, List.map_cons, List.flatten_cons, List.count_append,
        List.map_map]
      have hmap : (List.range m).map ((fun i => stepBlock c k (base + i + 1)) ∘ Nat.succ) =
          (List.range m).map (fun i => stepBlock c k (base + 1 + i + 1)) := by
        simp only [List.map_eq_map_iff]
        intro j hj
        simp only [Function.comp]
        congr 2
        omega
      rw [hmap, count_trainStep_stepBlock, ih (base + 1)]
      omega

lemma warn_notin_cbEvs (c : Nat) (h : HookName) : Ev.warnEmptyEpoch ∉ cbEvs c h := by
  simp [cbEvs]

lemma warn_notin_stepBlock (c : Nat) (k : Option Int) (m : Nat) :
    Ev.warnEmptyEpoch ∉ stepBlock c k m := by
  simp [stepBlock, cbEvs]

lemma warn_notin_flatten (c : Nat) (k : Option Int) (n base : Nat) :
    Ev.warnEmptyEpoch ∉
      (((List.range n).map (fun i => stepBlock c k (base + i + 1))).flatten) := by
  intro hmem
  rw [List.mem_flatten] at hmem
  obtain ⟨l, hl, hmem⟩ := hmem
  rw [List.mem_map] at hl
  obtain ⟨i, _, rfl⟩ := hl
  exact warn_notin_stepBlock c k (base + i + 1) hmem

/-- A 4-batch run with `max_epochs=1` and `evaluate_every_n_steps=2`. -/
def wC5 : World :=
  { state :=
      { train_state := some { dataloader := [(), (), (), ()], max_epochs := some 1 },
        eval_state := some { evaluate_every_n_steps := some 2 } } }

/-- C5: with an eval `PhaseState` configured with `evaluate_every_n_steps = k`
(`k ≥ 1`), a quiet full epoch over `n` batches emits exactly the step blocks
`stepBlock c (some k) m` for `m = 1..n`, and an evaluation pass belongs to the
block of step `m` iff `k` divides the resulting `num_steps_completed_in_epoch
= m`; so evaluation runs immediately after exactly the steps at multiples of
`k`.  In particular a 4-step epoch with `k = 2` produces exactly 2 evaluation
passes, right after steps 2 and 4. -/
theorem C5_eval_every_n_steps (c n fuel : Nat) (k : Int) (hk : 1 ≤ k) (w : World)
    (ts es : PhaseState)
    (hts : w.state.train_state = some ts) (hstop : w.state.should_stop = false)
    (hes : w.state.eval_state = some es)
    (hkc : es.evaluate_every_n_steps = some k)
    (hke : es.evaluate_every_n_epochs = none)
    (hmspe : ts.max_steps_per_epoch = none) (hms : ts.max_steps = none)
    (hsie : ts.progress.num_steps_completed_in_epoch = 0) (hout : ts.step_output = none)
    (hdl : ts.dataloader.length = n) (hfuel : n < fuel) :
    (train_epoch_impl (quietScript c) fuel w).2 = none ∧
    (train_epoch_impl (quietScript c) fuel w).1.trace =
      w.trace ++ [Ev.unitHook .onTrainEpochStart] ++ cbEvs c .onTrainEpochStart ++
        ((List.range n).map (fun i => stepBlock c (some k) (i + 1))).flatten ++
        (if n = 0 then [Ev.warnEmptyEpoch] else []) ++
        [Ev.unitHook .onTrainEpochEnd] ++ cbEvs c .onTrainEpochEnd ∧
    (∀ m, Ev.evalPass ∈ stepBlock c (some k) m ↔ (m : Int) % k = 0) ∧
    ((train_epoch_impl (quietScript 0) 5 wC5).1.trace =
      [Ev.unitHook .onTrainEpochStart, Ev.trainStep, Ev.trainStep, Ev.evalPass,
       Ev.trainStep, Ev.trainStep, Ev.evalPass, Ev.unitHook .onTrainEpochEnd] ∧
     (train_epoch_impl (quietScript 0) 5 wC5).1.trace.count Ev.evalPass = 2) := by
  have hres : resolveCadenceSteps w.state = some k := by
    unfold resolveCadenceSteps
    rw [hes]
    show truthyOpt es.evaluate_every_n_steps = some k
    rw [hkc]
    show (if k = 0 then none else some k) = some k
    rw [if_neg (by omega)]
  have hrese : resolveCadenceEpochs w.state = none := by
    unfold resolveCadenceEpochs
    rw [hes]
    show truthyOpt es.evaluate_every_n_epochs = none
    rw [hke]
    rfl
  have h := train_epoch_impl_quiet c fuel w ts hts hstop hmspe hms hsie hout
    (by rw [hdl]; exact hfuel)
  rw [hres, hrese, hdl] at h
  refine ⟨by rw [h], ?_, ?_, by decide⟩
  · rw [h]
    show w.trace ++ _ ++ _ ++ _ ++ _ ++ _ ++ _ ++ _ = _
    simp [epochEvalCond]
  · intro m
    simp [stepBlock, cbEvs, stepEvalCond]

/-- C6: a quiet epoch over a dataloader of exactly `n` batches with
`max_steps_per_epoch`, `max_steps` and `should_stop` unset runs `train_step`
exactly `n` times, advances `num_steps_completed` by exactly `n` and
`num_epochs_completed` by exactly 1, terminates normally on the end-of-data
signal, and logs the empty-epoch warning iff 0 steps were completed. -/
theorem C6_dataloader_exhaustion (c n fuel : Nat) (w : World) (ts : PhaseState)
    (hts : w.state.train_state = some ts) (hstop : w.state.should_stop = false)
    (hes : w.state.eval_state = none)
    (hmspe : ts.max_steps_per_epoch = none) (hms : ts.max_steps = none)
    (hsie : ts.progress.num_steps_completed_in_epoch = 0) (hout : ts.step_output = none)
    (hdl : ts.dataloader.length = n) (hfuel : n < fuel) :
    (train_epoch_impl (quietScript c) fuel w).2 = none ∧
    (trainProgress (train_epoch_impl (quietScript c) fuel w).1).num_steps_completed =
      ts.progress.num_steps_completed + n ∧
    (trainProgress (train_epoch_impl (quietScript c) fuel w).1).num_epochs_completed =
      ts.progress.num_epochs_completed + 1 ∧
    ∃ t, (train_epoch_impl (quietScript c) fuel w).1.trace = w.trace ++ t ∧
      t.count Ev.trainStep = n ∧ (Ev.warnEmptyEpoch ∈ t ↔ n = 0) := by
  have hres : resolveCadenceSteps w.state = none := by
    unfold resolveCadenceSteps
    rw [hes]
  have hrese : resolveCadenceEpochs w.state = none := by
    unfold resolveCadenceEpochs
    rw [hes]
  have h := train_epoch_impl_quiet c fuel w ts hts hstop hmspe hms hsie hout
    (by rw [hdl]; exact hfuel)
  rw [hres, hrese, hdl] at h
  refine ⟨by rw [h], by rw [h]; rfl, by rw [h]; rfl, ?_⟩
  refine ⟨[Ev.unitHook .onTrainEpochStart] ++ cbEvs c .onTrainEpochStart ++
    ((List.range n).map (fun i => stepBlock c none (i + 1))).flatten ++
    (if n = 0 then [Ev.warnEmptyEpoch] else []) ++
    [Ev.unitHook .onTrainEpochEnd] ++ cbEvs c .onTrainEpochEnd, ?_, ?_, ?_⟩
  · rw [h]
    show w.trace ++ _ ++ _ ++ _ ++ _ ++ _ ++ _ ++ _ = _
    simp [epochEvalCond, List.append_assoc]
  · have hcf := count_trainStep_flatten c none n 0
    simp only [Nat.zero_add] at hcf
    simp [List.count_append, count_trainStep_cbEvs, hcf]
    split <;> simp
  · have hwf := warn_notin_flatten c none n 0
    simp only [Nat.zero_add] at hwf
    by_cases hn : n = 0
    · simp [hn]
    · simp [hn, warn_notin_cbEvs, hwf]

theorem C5_eval_every_n_steps_witness :
    (train_epoch_impl (quietScript 0) 5 wC5).2 = none ∧
    (train_epoch_impl (quietScript 0) 5 wC5).1.trace =
      wC5.trace ++ [Ev.unitHook .onTrainEpochStart] ++ cbEvs 0 .onTrainEpochStart ++
        ((List.range 4).map (fun i => stepBlock 0 (some 2) (i + 1))).flatten ++
        (if 4 = 0 then [Ev.warnEmptyEpoch] else []) ++
        [Ev.unitHook .onTrainEpochEnd] ++ cbEvs 0 .onTrainEpochEnd ∧
    (∀ m, Ev.evalPass ∈ stepBlock 0 (some 2) m ↔ (m : Int) % 2 = 0) ∧
    ((train_epoch_impl (quietScript 0) 5 wC5).1.trace =
      [Ev.unitHook .onTrainEpochStart, Ev.trainStep, Ev.trainStep, Ev.evalPass,
       Ev.trainStep, Ev.trainStep, Ev.evalPass, Ev.unitHook .onTrainEpochEnd] ∧
     (train_epoch_impl (quietScript 0) 5 wC5).1.trace.count Ev.evalPass = 2) :=
  C5_eval_every_n_steps 0 4 5 2 (by decide) wC5
    { dataloader := [(), (), (), ()], max_epochs := some 1 }
    { evaluate_every_n_steps := some 2 }
    rfl rfl rfl rfl rfl rfl rfl rfl rfl rfl (by decide)

theorem C6_dataloader_exhaustion_witness :
    (train_epoch_impl (quietScript 1) 4 wStop3).2 = none ∧
    (trainProgress (train_epoch_impl (quietScript 1) 4 wStop3).1).num_steps_completed =
      ({ dataloader := [(), (), ()], max_epochs := some 1 } :
        PhaseState).progress.num_steps_completed + 3 ∧
    (trainProgress (train_epoch_impl (quietScript 1) 4 wStop3).1).num_epochs_completed =
      ({ dataloader := [(), (), ()], max_epochs := some 1 } :
        PhaseState).progress.num_epochs_completed + 1 ∧
    ∃ t, (train_epoch_impl (quietScript 1) 4 wStop3).1.trace = wStop3.trace ++ t ∧
      t.count Ev.trainStep = 3 ∧ (Ev.warnEmptyEpoch ∈ t ↔ 3 = 0) :=
  C6_dataloader_exhaustion 1 3 4 wStop3
    { dataloader := [(), (), ()], max_epochs := some 1 }
    rfl rfl rfl rfl rfl rfl rfl rfl (by decide)

lemma eOK_stepLoop_tail (s : Script) (mspe ms k : Option Int) (fuel : Nat)
    (rest : List Unit) (ke : Option Int) (prev : Nat) (prior : List Bool) (w2 : World) :
    EOK (fun _ : Ev => True) w2
      (andThen (stepLoop s mspe ms k fuel rest w2) (epochTail s ke prev prior)) :=
  eOK_andThen
    (eRel_of_frameRel (frameRel_mono (fun e _ => trivial)
      (frameOK_stepLoop s mspe ms k fuel rest w2)))
    (fun w3 => eOK_epochTail s ke prev prior w3 trivial trivial (fun j => trivial)
      (fun _ => trivial))

/-- C7: the `on_train_epoch_start` unit hook and the matching callback events
fire in a `_train_epoch_impl` call iff `num_steps_completed_in_epoch = 0` at
entry; a mid-epoch resume (`> 0`) does not re-fire them.  (The hooks are
assumed not to raise, otherwise their own exception would cut the dispatch
short.) -/
theorem C7_epoch_start_guard (s : Script) (fuel : Nat) (w : World) (ts : PhaseState)
    (hts : w.state.train_state = some ts)
    (hu : ∀ w', (s.unitEff .onTrainEpochStart w').raise = none)
    (hc : ∀ j w', (s.cbEff j .onTrainEpochStart w').raise = none) :
    ∃ t, (train_epoch_impl s fuel w).1.trace = w.trace ++ t ∧
      ((Ev.unitHook .onTrainEpochStart ∈ t) ↔
        ts.progress.num_steps_completed_in_epoch = 0) ∧
      (∀ i, i < s.nCallbacks →
        ((Ev.cbHook i .onTrainEpochStart ∈ t) ↔
          ts.progress.num_steps_completed_in_epoch = 0)) := by
  obtain ⟨⟨t, ht, hm⟩, _, _⟩ := eOK_train_epoch_impl s fuel w
  have hsie_eq : (trainProgress w).num_steps_completed_in_epoch =
      ts.progress.num_steps_completed_in_epoch := by
    unfold trainProgress
    rw [hts]
    rfl
  have hforward : ts.progress.num_steps_completed_in_epoch = 0 →
      ∃ trest, (train_epoch_impl s fuel w).1.trace =
        w.trace ++ [Ev.unitHook .onTrainEpochStart] ++
          cbEvs s.nCallbacks .onTrainEpochStart ++ trest := by
    intro h0
    unfold train_epoch_impl
    split
    · next heq =>
        exfalso
        have hsame : (trainPrologue w).state.train_state = w.state.train_state := by
          simp [trainPrologue]
        rw [hsame, hts] at heq
        cases heq
    · next ts0 heq =>
        have hts0 : ts0 = ts := by
          have hsame : (trainPrologue w).state.train_state = w.state.train_state := by
            simp [trainPrologue]
          rw [hsame, hts] at heq
          exact (Option.some.inj heq).symm
        subst hts0
        rw [if_pos h0]
        have hu1 : runUnitHook s .onTrainEpochStart (trainPrologue w) =
            (((trainPrologue w).emit (.unitHook .onTrainEpochStart)).applyStop
              (s.unitEff .onTrainEpochStart (trainPrologue w)).callStop, none) := by
          rw [runUnitHook_eq, hu]
        rw [hu1, andThen_ok]
        obtain ⟨w2, hcb, htr2⟩ := run_callback_fn_noraise s .onTrainEpochStart hc
          (((trainPrologue w).emit (.unitHook .onTrainEpochStart)).applyStop
            (s.unitEff .onTrainEpochStart (trainPrologue w)).callStop)
        rw [hcb, andThen_ok]
        obtain ⟨trest, htrest, _⟩ := (eOK_stepLoop_tail s ts0.max_steps_per_epoch
          ts0.max_steps (resolveCadenceSteps (trainPrologue w).state) fuel
          ((w2.state.train_state.getD {}).dataloader)
          (resolveCadenceEpochs (trainPrologue w).state)
          ((trainProgress w2).num_steps_completed_in_epoch)
          ((set_module_training_mode w.modules true).2) w2).1
        refine ⟨trest, ?_⟩
        rw [htrest, htr2, applyStop_trace, emit_trace]
        have hpt : (trainPrologue w).trace = w.trace := by simp [trainPrologue]
        rw [hpt]
  have hmp_u : Ev.unitHook .onTrainEpochStart ∈ t →
      ts.progress.num_steps_completed_in_epoch = 0 := by
    intro hmem
    rcases hm _ hmem with ⟨_, h0⟩ | ⟨⟨j, hj⟩, _⟩ | hst | hww | hend | ⟨j, hj⟩ | ⟨hev, _⟩
    · rw [← hsie_eq]; exact h0
    · simp at hj
    · rcases hst with hx | ⟨j, hx⟩ | ⟨j, hx⟩ | ⟨hx, _⟩ <;> simp at hx
    · simp at hww
    · simp at hend
    · simp at hj
    · simp at hev
  have hmp_c : ∀ i, Ev.cbHook i .onTrainEpochStart ∈ t →
      ts.progress.num_steps_completed_in_epoch = 0 := by
    intro i hmem
    rcases hm _ hmem with ⟨hj, _⟩ | ⟨⟨j, hj⟩, h0⟩ | hst | hww | hend | ⟨j, hj⟩ | ⟨hev, _⟩
    · simp at hj
    · rw [← hsie_eq]; exact h0
    · rcases hst with hx | ⟨j, hx⟩ | ⟨j, hx⟩ | ⟨hx, _⟩ <;> simp at hx
    · simp at hww
    · simp at hend
    · simp at hj
    · simp at hev
  have hdecomp : ts.progress.num_steps_completed_in_epoch = 0 →
      ∃ trest, t = [Ev.unitHook .onTrainEpochStart] ++
        (cbEvs s.nCallbacks .onTrainEpochStart ++ trest) := by
    intro h0
    obtain ⟨trest, htrest⟩ := hforward h0
    refine ⟨trest, ?_⟩
    have hcat : w.trace ++ t = w.trace ++ ([Ev.unitHook .onTrainEpochStart] ++
        (cbEvs s.nCallbacks .onTrainEpochStart ++ trest)) := by
      rw [← ht, htrest]
      simp [List.append_assoc]
    exact List.append_cancel_left hcat
  refine ⟨t, ht, ?_, ?_⟩
  · constructor
    · exact hmp_u
    · intro h0
      obtain ⟨trest, hteq⟩ := hdecomp h0
      rw [hteq]
      simp
  · intro i hi
    constructor
    · exact hmp_c i
    · intro h0
      obtain ⟨trest, hteq⟩ := hdecomp h0
      rw [hteq]
      simp [cbEvs]
      exact Or.inl hi

theorem C7_epoch_start_guard_witness :
    (∃ t, (train_epoch_impl (quietScript 1) 4 wStop3).1.trace = wStop3.trace ++ t ∧
      ((Ev.unitHook .onTrainEpochStart ∈ t) ↔
        ({ dataloader := [(), (), ()], max_epochs := some 1 } :
          PhaseState).progress.num_steps_completed_in_epoch = 0) ∧
      (∀ i, i < (quietScript 1).nCallbacks →
        ((Ev.cbHook i .onTrainEpochStart ∈ t) ↔
          ({ dataloader := [(), (), ()], max_epochs := some 1 } :
            PhaseState).progress.num_steps_completed_in_epoch = 0))) :=
  C7_epoch_start_guard (quietScript 1) 4 wStop3
    { dataloader := [(), (), ()], max_epochs := some 1 }
    rfl (fun w' => rfl) (fun j w' => rfl)

/-- Exact shape of a normal return of `epochTail`: the epoch counter is
incremented by one, and the appended trace is an optional empty-epoch warning,
the `on_train_epoch_end` unit hook, the epoch-end callback events, and an
evaluation pass exactly when the every-n-epochs condition holds at the new
counter. -/
lemma epochTail_none_facts (s : Script) (ke : Option Int) (prev : Nat)
    (prior : List Bool) (w3 w' : World) (ts3 : PhaseState)
    (h3 : w3.state.train_state = some ts3)
    (hok : epochTail s ke prev prior w3 = (w', none)) :
    (trainProgress w').num_epochs_completed = ts3.progress.num_epochs_completed + 1 ∧
    ∃ ws tcb evs, w'.trace = w3.trace ++ ws ++ [Ev.unitHook .onTrainEpochEnd] ++
        tcb ++ evs ∧
      (∀ e ∈ ws, e = Ev.warnEmptyEpoch) ∧
      (∀ e ∈ tcb, ∃ j, e = Ev.cbHook j .onTrainEpochEnd) ∧
      (evs = [Ev.evalPass] ∨ evs = []) ∧
      (evs = [Ev.evalPass] ↔
        epochEvalCond ke (trainProgress w').num_epochs_completed = true) := by
  unfold epochTail at hok
  rcases andThen_cases hok with ⟨e, _, hbad⟩ | ⟨w6, hu6, htail2⟩
  · cases hbad
  rcases andThen_cases htail2 with ⟨e, _, hbad⟩ | ⟨w7, hcb7, htail3⟩
  · cases hbad
  obtain ⟨ws, hWtr, hWm, hWts⟩ :
      ∃ ws,
        (if any_steps_completed (trainProgress w3).num_steps_completed_in_epoch prev
            then w3 else w3.emit .warnEmptyEpoch).trace = w3.trace ++ ws ∧
        (∀ e ∈ ws, e = Ev.warnEmptyEpoch) ∧
        ((if any_steps_completed (trainProgress w3).num_steps_completed_in_epoch prev
            then w3 else w3.emit .warnEmptyEpoch).modifyTrain
          (fun ts => { ts with progress := ts.progress.increment_epoch })).state.train_state =
          some { ts3 with progress := ts3.progress.increment_epoch } := by
    refine ⟨if any_steps_completed (trainProgress w3).num_steps_completed_in_epoch prev
      then [] else [Ev.warnEmptyEpoch], ?_, ?_, ?_⟩
    · split <;> simp [*]
    · split <;> simp
    · rw [modifyTrain_train_state]
      split <;> simp [h3]
  rw [runUnitHook_eq] at hu6
  injection hu6 with hw6 hraise
  have hw6_trace : w6.trace = w3.trace ++ ws ++ [Ev.unitHook .onTrainEpochEnd] := by
    rw [← hw6]
    simp [hWtr]
  have hw6_ts : w6.state.train_state =
      some { ts3 with progress := ts3.progress.increment_epoch } := by
    rw [← hw6]
    simp only [applyStop_train_state, emit_state]
    exact hWts
  have hframe7 : FrameRel (fun e => ∃ j, e = Ev.cbHook j .onTrainEpochEnd) w6 w7 := by
    have h : FrameOK (fun e => ∃ j, e = Ev.cbHook j .onTrainEpochEnd) w6
        (run_callback_fn s .onTrainEpochEnd w6) :=
      frameOK_run_callback_fn s .onTrainEpochEnd w6 (fun j => ⟨j, rfl⟩)
    rw [hcb7] at h
    exact h
  obtain ⟨tcb, htcb, hmcb⟩ := hframe7.1
  have h_ep7 : (trainProgress w7).num_epochs_completed =
      ts3.progress.num_epochs_completed + 1 := by
    have e1 := hframe7.2.2.2.1
    have e2 : trainProgress w6 = ts3.progress.increment_epoch := by
      simp [trainProgress, hw6_ts]
    rw [e2] at e1
    rw [e1]
    rfl
  by_cases hcond : epochEvalCond ke (trainProgress w7).num_epochs_completed = true
  · rw [if_pos hcond] at htail3
    simp only [evaluate_impl, andThen_ok] at htail3
    injection htail3 with hw' hnone
    have hepw' : trainProgress w' = trainProgress w7 := by
      rw [← hw']
      rfl
    have htrw' : w'.trace = w7.trace ++ [Ev.evalPass] := by
      rw [← hw']
      rfl
    refine ⟨by rw [hepw', h_ep7], ws, tcb, [Ev.evalPass], ?_, hWm, hmcb, Or.inl rfl, ?_⟩
    · rw [htrw', htcb, hw6_trace]
    · rw [hepw']
      exact iff_of_true rfl hcond
  · rw [if_neg hcond] at htail3
    simp only [andThen_ok] at htail3
    injection htail3 with hw' hnone
    have hepw' : trainProgress w' = trainProgress w7 := by
      rw [← hw']
      rfl
    have htrw' : w'.trace = w7.trace := by
      rw [← hw']
    refine ⟨by rw [hepw', h_ep7], ws, tcb, [], ?_, hWm, hmcb, Or.inr rfl, ?_⟩
    · rw [htrw', htcb, hw6_trace]
      simp [List.append_assoc]
    · rw [hepw']
      refine iff_of_false (by simp) hcond

/-- C9: every normal return of `_train_epoch_impl` increments
`num_epochs_completed` by exactly one, fires the `on_train_epoch_end` unit
hook exactly once, and runs the trailing evaluation pass exactly when the
every-n-epochs condition holds at the incremented counter, regardless of how
the step loop ended. -/
theorem C9_epoch_end_invariants (s : Script) (fuel : Nat) (w : World)
    (ts : PhaseState) (w' : World)
    (hts : w.state.train_state = some ts)
    (hok : train_epoch_impl s fuel w = (w', none)) :
    (trainProgress w').num_epochs_completed = ts.progress.num_epochs_completed + 1 ∧
    ∃ t, w'.trace = w.trace ++ t ∧
      t.count (Ev.unitHook .onTrainEpochEnd) = 1 ∧
      (t.getLast? = some Ev.evalPass ↔
        epochEvalCond (resolveCadenceEpochs w.state)
          (trainProgress w').num_epochs_completed = true) := by
  have hpro_ts : (trainPrologue w).state.train_state = some ts := by
    simpa [trainPrologue] using hts
  have hKE : resolveCadenceEpochs (trainPrologue w).state = resolveCadenceEpochs w.state :=
    resolveCadenceEpochs_eq_of_eval (by simp [trainPrologue])
  unfold train_epoch_impl at hok
  split at hok
  · next heq =>
      rw [hpro_ts] at heq
      cases heq
  · next ts0 heq =>
      have hts0 : ts = ts0 := by
        rw [hpro_ts] at heq
        exact Option.some.inj heq
      subst hts0
      rcases andThen_cases hok with ⟨e, _, hbad⟩ | ⟨w2, h1, h2⟩
      · cases hbad
      have hframe0 : FrameRel (fun e => e = Ev.unitHook .onTrainEpochStart ∨
          ∃ j, e = Ev.cbHook j .onTrainEpochStart) (trainPrologue w) w2 := by
        by_cases hsie : ts.progress.num_steps_completed_in_epoch = 0
        · rw [if_pos hsie] at h1
          have h : FrameOK (fun e => e = Ev.unitHook .onTrainEpochStart ∨
              ∃ j, e = Ev.cbHook j .onTrainEpochStart) (trainPrologue w)
              (andThen (runUnitHook s .onTrainEpochStart (trainPrologue w)) (fun w1 =>
                run_callback_fn s .onTrainEpochStart w1)) :=
            frameOK_andThen (frameOK_runUnitHook s _ _ (Or.inl rfl))
              (fun wm => frameOK_run_callback_fn s _ wm (fun j => Or.inr ⟨j, rfl⟩))
          rw [h1] at h
          exact h
        · rw [if_neg hsie] at h1
          injection h1 with hw2 _
          rw [← hw2]
          exact frameRel_rfl _
      rcases andThen_cases h2 with ⟨e, _, hbad⟩ | ⟨w3, hstep, htail⟩
      · cases hbad
      have hframe2 : FrameRel (StepEv (resolveCadenceSteps (trainPrologue w).state)) w2 w3 := by
        have h := frameOK_stepLoop s ts.max_steps_per_epoch ts.max_steps
          (resolveCadenceSteps (trainPrologue w).state) fuel
          ((w2.state.train_state.getD {}).dataloader) w2
        rw [hstep] at h
        exact h
      have h_isSome3 : w3.state.train_state.isSome = true := by
        rw [hframe2.2.2.1, hframe0.2.2.1, hpro_ts]
        rfl
      obtain ⟨ts3, h3⟩ := Option.isSome_iff_exists.mp h_isSome3
      have h_ep3 : ts3.progress.num_epochs_completed = ts.progress.num_epochs_completed := by
        have e1 := hframe2.2.2.2.1
        have e2 := hframe0.2.2.2.1
        have e3 : trainProgress w3 = ts3.progress := by
          simp [trainProgress, h3]
        have e4 : trainProgress (trainPrologue w) = ts.progress := by
          simp [trainProgress, hpro_ts]
        rw [e3] at e1
        rw [e4] at e2
        rw [e2] at e1
        exact e1
      obtain ⟨hep', ws, tcb, evs, htr', hmw, hmcb, hevs, hiff⟩ :=
        epochTail_none_facts s (resolveCadenceEpochs (trainPrologue w).state)
          ((trainProgress w2).num_steps_completed_in_epoch)
          ((set_module_training_mode w.modules true).2) w3 w' ts3 h3 htail
      obtain ⟨t0, ht0, hm0⟩ := hframe0.1
      obtain ⟨t2, ht2, hm2⟩ := hframe2.1
      have hpro_trace : (trainPrologue w).trace = w.trace := by
        simp [trainPrologue]
      refine ⟨by rw [hep', h_ep3], t0 ++ t2 ++ ws ++ [Ev.unitHook .onTrainEpochEnd] ++
        tcb ++ evs, ?_, ?_, ?_⟩
      · rw [htr', ht2, ht0, hpro_trace]
        simp [List.append_assoc]
      · have c0 : Ev.unitHook HookName.onTrainEpochEnd ∉ t0 := by
          intro hmem
          rcases hm0 _ hmem with h | ⟨j, h⟩ <;> simp at h
        have c2 : Ev.unitHook HookName.onTrainEpochEnd ∉ t2 := by
          intro hmem
          rcases hm2 _ hmem with h | ⟨j, h⟩ | ⟨j, h⟩ | ⟨h, _⟩ <;> simp at h
        have cw : Ev.unitHook HookName.onTrainEpochEnd ∉ ws := by
          intro hmem
          have h := hmw _ hmem
          simp at h
        have ccb : Ev.unitHook HookName.onTrainEpochEnd ∉ tcb := by
          intro hmem
          obtain ⟨j, h⟩ := hmcb _ hmem
          simp at h
        have cev : Ev.unitHook HookName.onTrainEpochEnd ∉ evs := by
          intro hmem
          rcases hevs with h | h <;> rw [h] at hmem <;> simp at hmem
        simp [List.count_append, List.count_eq_zero.mpr c0, List.count_eq_zero.mpr c2,
          List.count_eq_zero.mpr cw, List.count_eq_zero.mpr ccb, List.count_eq_zero.mpr cev]
      · rcases hevs with hev1 | hev1
        · refine iff_of_true ?_ (hiff.mp hev1)
          rw [hev1]
          rw [show t0 ++ t2 ++ ws ++ [Ev.unitHook HookName.onTrainEpochEnd] ++ tcb ++
              [Ev.evalPass] = (t0 ++ t2 ++ ws ++ [Ev.unitHook HookName.onTrainEpochEnd] ++
              tcb) ++ [Ev.evalPass] from rfl]
          exact List.getLast?_concat _
        · refine iff_of_false ?_ ?_
          · rw [hev1]
            rcases List.eq_nil_or_concat tcb with htc | ⟨tc, a, htc⟩
            · rw [htc]
              rw [show t0 ++ t2 ++ ws ++ [Ev.unitHook HookName.onTrainEpochEnd] ++
                  ([] : List Ev) ++ ([] : List Ev) = (t0 ++ t2 ++ ws) ++
                  [Ev.unitHook HookName.onTrainEpochEnd] from by simp]
              rw [List.getLast?_concat]
              simp
            · have hamem : a ∈ tcb := by
                rw [htc]
                simp
              obtain ⟨j, ha⟩ := hmcb _ hamem
              rw [htc]
              rw [show t0 ++ t2 ++ ws ++ [Ev.unitHook HookName.onTrainEpochEnd] ++
                  tc.concat a ++ ([] : List Ev) = (t0 ++ t2 ++ ws ++
                  [Ev.unitHook HookName.onTrainEpochEnd] ++ tc) ++ [a] from by simp]
              rw [List.getLast?_concat, ha]
              simp
          · intro hc
            have := hiff.mpr (by rw [← hKE] at hc; exact hc)
            rw [hev1] at this
            cases this

/-- Concrete run discharging the hypotheses of `C9_epoch_end_invariants`: a
quiet one-callback script over a three-batch dataloader with
`max_epochs = 1`. -/
theorem C9_epoch_end_invariants_witness :
    (trainProgress (train_epoch_impl (quietScript 1) 4 wStop3).1).num_epochs_completed =
      ({ dataloader := [(), (), ()], max_epochs := some 1 } :
        PhaseState).progress.num_epochs_completed + 1 ∧
    ∃ t, (train_epoch_impl (quietScript 1) 4 wStop3).1.trace = wStop3.trace ++ t ∧
      t.count (Ev.unitHook .onTrainEpochEnd) = 1 ∧
      (t.getLast? = some Ev.evalPass ↔
        epochEvalCond (resolveCadenceEpochs wStop3.state)
          (trainProgress (train_epoch_impl (quietScript 1) 4 wStop3).1).num_epochs_completed
          = true) :=
  C9_epoch_end_invariants (quietScript 1) 4 wStop3
    { dataloader := [(), (), ()], max_epochs := some 1 }
    (train_epoch_impl (quietScript 1) 4 wStop3).1 rfl rfl

end TNT
